import Mathlib

/-!
Shallow embedding of the saw_tool_webscraper harvesting pipeline
(module list deduplication, master/version aggregation, profession-name
to id mapping, snapshot change detection, retry/backoff, and the crawl
main loops of `module_scraper_v2.py` / `module_scraper_v3.py`), with
theorems checking the natural-language specification against it.

Python machine-level conventions used throughout the embedding:
- Python `int(s)` on the digit strings produced by the scraper's regexes
  is modelled by `pyInt` (`String.toNat?` with default 0);
- Python `dict` insertion (`d[k] = v`, overwriting but keeping the
  position of the first insertion) is `insertAssoc`;
- Python `sorted`/`list.sort` (a stable sort) is `List.insertionSort`
  with a non-strict `≤` comparison, which is also stable;
- Python `enumerate` is the explicit counter recursion `assignIds`.
-/

namespace Scraper

/-- Base-10 accumulation over a character list. -/
def parseNatGo : List Char → Nat → Nat
  | [], acc => acc
  | c :: cs, acc => parseNatGo cs (acc * 10 + (c.toNat - 48))

/-- Python `int(s)` on the all-digit strings produced by the scraper's
regexes (`(\d{3,4})`, `(\d+)`); on such strings this is exactly Python's
base-10 parse. -/
def pyInt (s : String) : Nat := parseNatGo s.toList 0

/-- Python `<=` on strings: lexicographic comparison by Unicode code
point, as a recursive Boolean function on the character lists. -/
def charListLe : List Char → List Char → Bool
  | [], _ => true
  | _ :: _, [] => false
  | a :: as, b :: bs =>
    if a.toNat < b.toNat then true
    else if b.toNat < a.toNat then false
    else charListLe as bs

/-- Python `a <= b` for strings. -/
def pyStrLe (a b : String) : Bool := charListLe a.toList b.toList

theorem charListLe_total : ∀ as bs : List Char,
    charListLe as bs = true ∨ charListLe bs as = true
  | [], _ => Or.inl rfl
  | _ :: _, [] => Or.inr rfl
  | a :: as, b :: bs => by
    rcases Nat.lt_trichotomy a.toNat b.toNat with h | h | h
    · left
      simp [charListLe, h]
    · have h' : ¬ a.toNat < b.toNat := by omega
      have h'' : ¬ b.toNat < a.toNat := by omega
      rcases charListLe_total as bs with hc | hc
      · left
        simp [charListLe, h', h'', hc]
      · right
        simp [charListLe, h', h'', hc]
    · right
      simp [charListLe, h]

theorem charListLe_trans : ∀ as bs cs : List Char,
    charListLe as bs = true → charListLe bs cs = true → charListLe as cs = true
  | [], _, _, _, _ => rfl
  | _ :: _, [], _, hab, _ => by simp [charListLe] at hab
  | _ :: _, _ :: _, [], _, hbc => by simp [charListLe] at hbc
  | a :: as, b :: bs, c :: cs, hab, hbc => by
    simp only [charListLe] at hab hbc ⊢
    split_ifs at hab with h1 h2
    · split_ifs at hbc with h3 h4
      · have h5 : a.toNat < c.toNat := h1.trans h3
        simp [h5]
      · have h5 : a.toNat < c.toNat := by omega
        simp [h5]
    · split_ifs at hbc with h3 h4
      · have h5 : a.toNat < c.toNat := by omega
        simp [h5]
      · have h5 : ¬ a.toNat < c.toNat := by omega
        have h6 : ¬ c.toNat < a.toNat := by omega
        simp only [if_neg h5, if_neg h6]
        exact charListLe_trans as bs cs hab hbc

/-- Python dict assignment `d[k] = v`: overwrite the value of an existing
key in place, otherwise append the new binding at the end. -/
def insertAssoc {β : Type} (m : List (String × β)) (k : String) (v : β) :
    List (String × β) :=
  match m with
  | [] => [(k, v)]
  | (k', v') :: rest =>
    if k' = k then (k, v) :: rest else (k', v') :: insertAssoc rest k v

/-- Python dict lookup `d.get(k)`. -/
def lookupAssoc {β : Type} (m : List (String × β)) (k : String) : Option β :=
  (m.find? (fun p => p.1 = k)).map Prod.snd

theorem lookupAssoc_nil {β : Type} (k : String) :
    lookupAssoc ([] : List (String × β)) k = none := rfl

theorem lookupAssoc_cons {β : Type} (k₀ : String) (v₀ : β) (rest : List (String × β))
    (k' : String) :
    lookupAssoc ((k₀, v₀) :: rest) k' =
      if k₀ = k' then some v₀ else lookupAssoc rest k' := by
  by_cases h : k₀ = k' <;> simp [lookupAssoc, List.find?, h]

theorem insertAssoc_cons_eq {β : Type} (k₀ : String) (v₀ : β) (rest : List (String × β))
    (k : String) (v : β) (h : k₀ = k) :
    insertAssoc ((k₀, v₀) :: rest) k v = (k, v) :: rest := by
  simp [insertAssoc, h]

theorem insertAssoc_cons_ne {β : Type} (k₀ : String) (v₀ : β) (rest : List (String × β))
    (k : String) (v : β) (h : ¬ k₀ = k) :
    insertAssoc ((k₀, v₀) :: rest) k v = (k₀, v₀) :: insertAssoc rest k v := by
  simp [insertAssoc, h]

theorem lookupAssoc_insertAssoc {β : Type} (m : List (String × β)) (k k' : String) (v : β) :
    lookupAssoc (insertAssoc m k v) k' =
      if k' = k then some v else lookupAssoc m k' := by
  induction m with
  | nil =>
    show lookupAssoc [(k, v)] k' = _
    rw [lookupAssoc_cons, lookupAssoc_nil]
    by_cases h : k' = k
    · rw [if_pos h.symm, if_pos h]
    · rw [if_neg (fun he => h he.symm), if_neg h]
  | cons p rest ih =>
    obtain ⟨k₀, v₀⟩ := p
    by_cases h0 : k₀ = k
    · rw [insertAssoc_cons_eq _ _ _ _ _ h0, lookupAssoc_cons, lookupAssoc_cons]
      by_cases h : k' = k
      · rw [if_pos h.symm, if_pos h]
      · rw [if_neg (fun he => h he.symm), if_neg h,
          if_neg (fun he => h (he.symm.trans h0))]
    · rw [insertAssoc_cons_ne _ _ _ _ _ h0, lookupAssoc_cons, lookupAssoc_cons]
      by_cases h : k₀ = k'
      · have hk'k : ¬ k' = k := fun he => h0 (h.trans he)
        rw [if_pos h, if_neg hk'k, if_pos h]
      · simp only [if_neg h]
        exact ih

theorem keys_insertAssoc_mem {β : Type} (m : List (String × β)) (k k' : String) (v : β) :
    k' ∈ (insertAssoc m k v).map Prod.fst ↔ k' = k ∨ k' ∈ m.map Prod.fst := by
  induction m with
  | nil => simp [insertAssoc]
  | cons p rest ih =>
    obtain ⟨k₀, v₀⟩ := p
    by_cases h0 : k₀ = k
    · subst h0
      simp only [insertAssoc, if_pos rfl, List.map_cons, List.mem_cons]
      simp
    · simp only [insertAssoc, if_neg h0, List.map_cons, List.mem_cons, ih]
      tauto

theorem nodup_keys_insertAssoc {β : Type} (m : List (String × β)) (k : String) (v : β)
    (h : (m.map Prod.fst).Nodup) : ((insertAssoc m k v).map Prod.fst).Nodup := by
  induction m with
  | nil => simp [insertAssoc]
  | cons p rest ih =>
    obtain ⟨k₀, v₀⟩ := p
    simp only [List.map_cons, List.nodup_cons] at h
    by_cases h0 : k₀ = k
    · subst h0
      simpa [insertAssoc] using h
    · simp only [insertAssoc, if_neg h0, List.map_cons, List.nodup_cons]
      refine ⟨fun hc => ?_, ih h.2⟩
      rcases (keys_insertAssoc_mem rest k k₀ v).1 hc with he | hm
      · exact h0 he
      · exact h.1 hm

theorem lookupAssoc_isSome_iff_mem_keys {β : Type} (m : List (String × β)) (k : String) :
    (lookupAssoc m k).isSome ↔ k ∈ m.map Prod.fst := by
  induction m with
  | nil => simp [lookupAssoc, List.find?]
  | cons p rest ih =>
    obtain ⟨k₀, v₀⟩ := p
    rw [lookupAssoc_cons]
    by_cases h : k₀ = k
    · simp [h]
    · have h' : ¬ k = k₀ := fun he => h he.symm
      simpa [h, h'] using ih

theorem lookupAssoc_eq_some_of_mem {β : Type} (m : List (String × β)) (k : String) (v : β)
    (hnd : (m.map Prod.fst).Nodup) (hmem : (k, v) ∈ m) : lookupAssoc m k = some v := by
  induction m with
  | nil => simp at hmem
  | cons p rest ih =>
    obtain ⟨k₀, v₀⟩ := p
    simp only [List.map_cons, List.nodup_cons] at hnd
    rcases List.mem_cons.1 hmem with he | hm
    · cases he
      rw [lookupAssoc_cons, if_pos rfl]
    · have hk : ¬ k₀ = k := by
        intro he
        subst he
        exact hnd.1 (List.mem_map.2 ⟨(k₀, v), hm, rfl⟩)
      rw [lookupAssoc_cons, if_neg hk]
      exact ih hnd.2 hm

theorem mem_of_lookupAssoc_eq_some {β : Type} (m : List (String × β)) (k : String) (v : β)
    (h : lookupAssoc m k = some v) : (k, v) ∈ m := by
  induction m with
  | nil => simp [lookupAssoc, List.find?] at h
  | cons p rest ih =>
    obtain ⟨k₀, v₀⟩ := p
    rw [lookupAssoc_cons] at h
    by_cases hk : k₀ = k
    · subst hk
      rw [if_pos rfl] at h
      cases h
      exact List.mem_cons_self _ _
    · rw [if_neg hk] at h
      exact List.mem_cons.2 (Or.inr (ih h))

end Scraper

namespace Scraper

/-- A profession entry `{'id': ..., 'name': ...}`. -/
structure Beruf where
  id : Nat
  name : String
deriving DecidableEq, Repr

/-- Python `enumerate` with ids starting at `i`:
`[{'id': i + 1, 'name': beruf} for i, beruf in enumerate(unique_berufe)]`. -/
def assignIds (i : Nat) : List String → List Beruf
  | [] => []
  | b :: rest => ⟨i, b⟩ :: assignIds (i + 1) rest

/-- Model of `create_beruf_mapping` (identical in `module_scraper{,_v2,_v3,_parallel}.py`
and `phase2_parse.py`): `unique_berufe = sorted(list(set(all_berufe)))`,
then ids `1..N` by enumeration. `sorted(list(set(...)))` is modelled as a
stable sort of the list of distinct names. -/
def create_beruf_mapping (all_berufe : List String) : List Beruf :=
  assignIds 1 (List.insertionSort (fun a b => pyStrLe a b = true) all_berufe.dedup)

theorem map_name_assignIds (i : Nat) (l : List String) :
    (assignIds i l).map Beruf.name = l := by
  induction l generalizing i with
  | nil => rfl
  | cons b rest ih => simp [assignIds, ih]

theorem map_id_assignIds (i : Nat) (l : List String) :
    (assignIds i l).map Beruf.id = List.range' i l.length := by
  induction l generalizing i with
  | nil => rfl
  | cons b rest ih => simp [assignIds, ih, List.range']

theorem mem_assignIds_bounds (i : Nat) (l : List String) (b : Beruf)
    (h : b ∈ assignIds i l) : i ≤ b.id ∧ b.id < i + l.length := by
  induction l generalizing i with
  | nil => simp [assignIds] at h
  | cons s rest ih =>
    rcases List.mem_cons.1 h with he | hm
    · subst he
      simp
    · have := ih (i + 1) hm
      constructor <;> [omega; (simp [List.length_cons]; omega)]

theorem create_beruf_mapping_names (all_berufe : List String) :
    (create_beruf_mapping all_berufe).map Beruf.name =
      List.insertionSort (fun a b => pyStrLe a b = true) all_berufe.dedup :=
  map_name_assignIds 1 _

theorem create_beruf_mapping_ids (all_berufe : List String) :
    (create_beruf_mapping all_berufe).map Beruf.id =
      List.range' 1 (create_beruf_mapping all_berufe).length := by
  have hlen : (create_beruf_mapping all_berufe).length =
      (List.insertionSort (fun a b => pyStrLe a b = true) all_berufe.dedup).length := by
    have := congrArg List.length (create_beruf_mapping_names all_berufe)
    simpa using this
  rw [hlen]
  exact map_id_assignIds 1 _

end Scraper

namespace Scraper

/-- One raw entry of the scraped module list
(`{'nummer': ..., 'version': ..., 'titel': ..., 'detail_url': ...}`). -/
structure RawEntry where
  nummer : String
  version : String
  titel : String
  detail_url : String
deriving DecidableEq, Repr

/-- The deduplication key `f"{mod['nummer']}-{mod['version']}"`. -/
def rawKey (e : RawEntry) : String := e.nummer ++ "-" ++ e.version

/-- The dict-based first-seen-wins loop of `scrape_module_list`
(`module_scraper_v3.py` lines 94-105): `if key not in unique_modules:
unique_modules[key] = mod`, generalized over the set of already seen keys. -/
def dedupeGo (seen : List String) : List RawEntry → List RawEntry
  | [] => []
  | e :: rest =>
    if rawKey e ∈ seen then dedupeGo seen rest
    else e :: dedupeGo (rawKey e :: seen) rest

/-- Model of `list(unique_modules.values())`: the deduplicated module list in
first-seen input order. -/
def dedupe (entries : List RawEntry) : List RawEntry := dedupeGo [] entries

theorem dedupeGo_filter (seen : List String) (xs : List RawEntry) (k : String) :
    (dedupeGo seen xs).filter (fun e => rawKey e = k) =
      if k ∈ seen then [] else (xs.filter (fun e => rawKey e = k)).take 1 := by
  induction xs generalizing seen with
  | nil => by_cases h : k ∈ seen <;> simp [dedupeGo, h]
  | cons e rest ih =>
    by_cases hs : rawKey e ∈ seen
    · by_cases hk : rawKey e = k
      · subst hk
        simp [dedupeGo, if_pos hs, ih, List.filter, hs]
      · have hk' : (decide (rawKey e = k)) = false := by simp [hk]
        by_cases hkm : k ∈ seen <;>
          simp [dedupeGo, hs, ih, hkm, List.filter, hk']
    · by_cases hk : rawKey e = k
      · subst hk
        have : rawKey e ∈ rawKey e :: seen := List.mem_cons_self _ _
        simp [dedupeGo, hs, List.filter, ih, this]
      · have hk' : (decide (rawKey e = k)) = false := by simp [hk]
        have hmem : k ∈ rawKey e :: seen ↔ k ∈ seen := by
          simp only [List.mem_cons]
          constructor
          · rintro (h | h)
            · exact absurd h.symm hk
            · exact h
          · exact Or.inr
        by_cases hkm : k ∈ seen <;>
          simp [dedupeGo, hs, List.filter, hk', ih, hmem, hkm]

theorem dedupeGo_sublist (seen : List String) (xs : List RawEntry) :
    (dedupeGo seen xs).Sublist xs := by
  induction xs generalizing seen with
  | nil => simp [dedupeGo]
  | cons e rest ih =>
    by_cases hs : rawKey e ∈ seen
    · simpa [dedupeGo, hs] using (ih seen).trans (List.sublist_cons_self e rest)
    · simpa [dedupeGo, hs] using (ih (rawKey e :: seen)).cons₂ e

theorem dedupeGo_nodup_keys (seen : List String) (xs : List RawEntry) :
    ((dedupeGo seen xs).map rawKey).Nodup ∧
      ∀ e ∈ dedupeGo seen xs, rawKey e ∉ seen := by
  induction xs generalizing seen with
  | nil => simp [dedupeGo]
  | cons e rest ih =>
    by_cases hs : rawKey e ∈ seen
    · simpa [dedupeGo, hs] using ih seen
    · have h := ih (rawKey e :: seen)
      constructor
      · simp only [dedupeGo, if_neg hs, List.map_cons, List.nodup_cons]
        refine ⟨fun hc => ?_, h.1⟩
        rcases List.mem_map.1 hc with ⟨e', he', hke⟩
        exact (h.2 e' he') (hke ▸ List.mem_cons_self _ _)
      · intro e' he'
        rcases List.mem_cons.1 (by simpa [dedupeGo, hs] using he') with he | hm
        · subst he
          exact hs
        · intro hcon
          exact (h.2 e' hm) (List.mem_cons_of_mem _ hcon)

/-- C2. For every input sequence of raw entries, the Deduplicator keeps,
for each distinct `(module_number, version)` key, exactly the first-seen
entry in input order (so its output, restricted to any key, is the first
element of the input restricted to that key), the output keys are
pairwise distinct, and the output is a subsequence of the input. -/
theorem claim_c2_dedup_first_seen (entries : List RawEntry) :
    (∀ k : String,
      (dedupe entries).filter (fun e => rawKey e = k) =
        (entries.filter (fun e => rawKey e = k)).take 1) ∧
    ((dedupe entries).map rawKey).Nodup ∧
    (dedupe entries).Sublist entries := by
  refine ⟨fun k => ?_, (dedupeGo_nodup_keys [] entries).1, dedupeGo_sublist [] entries⟩
  simpa [dedupe] using dedupeGo_filter [] entries k

/-- C3. The profession mapping contains each distinct collected name
exactly once, sorted, with ids exactly `1..N` in that order; on
`["ICT-Fachmann EFZ", "Informatiker EFZ"]` it assigns 1 and 2 in
lexicographic order. -/
theorem claim_c3_beruf_mapping (all_berufe : List String) :
    ((create_beruf_mapping all_berufe).map Beruf.name).Nodup ∧
    ((create_beruf_mapping all_berufe).map Beruf.name).Sorted
      (fun a b => pyStrLe a b = true) ∧
    (∀ b : String,
      b ∈ (create_beruf_mapping all_berufe).map Beruf.name ↔ b ∈ all_berufe) ∧
    (create_beruf_mapping all_berufe).map Beruf.id =
      List.range' 1 (create_beruf_mapping all_berufe).length ∧
    create_beruf_mapping ["ICT-Fachmann EFZ", "Informatiker EFZ"] =
      [⟨1, "ICT-Fachmann EFZ"⟩, ⟨2, "Informatiker EFZ"⟩] := by
  haveI htot : IsTotal String (fun a b => pyStrLe a b = true) :=
    ⟨fun a b => charListLe_total a.toList b.toList⟩
  haveI htr : IsTrans String (fun a b => pyStrLe a b = true) :=
    ⟨fun a b c => charListLe_trans a.toList b.toList c.toList⟩
  refine ⟨?_, ?_, fun b => ?_, create_beruf_mapping_ids all_berufe, by decide⟩
  · rw [create_beruf_mapping_names]
    exact ((List.perm_insertionSort _ _).nodup_iff).2 all_berufe.nodup_dedup
  · rw [create_beruf_mapping_names]
    exact List.sorted_insertionSort _ _
  · rw [create_beruf_mapping_names]
    rw [List.mem_insertionSort]
    exact List.mem_dedup

end Scraper

namespace Report

open Scraper

/-- One version entry of a persisted snapshot, with the fields
`compare_databases` reads: `version['version']`,
`version.get('content_hash')`, `version.get('publikationsdatum')`. -/
structure VersionRec where
  version : String
  content_hash : Option String
  publikationsdatum : Option String
deriving DecidableEq, Repr

/-- One master entry of a persisted snapshot, with the fields
`compare_databases` reads: `master['nummer']`, `master['titel_master']`,
`master['versionen']`. -/
structure MasterRec where
  nummer : String
  titel_master : String
  versionen : List VersionRec
deriving DecidableEq, Repr

/-- The `meta` block fields read by `compare_databases`; the two
`meta.get(..., 0)` fields are optional. -/
structure MetaRec where
  anzahl_master_module : Nat
  anzahl_versionen_total : Nat
  anzahl_berufe : Nat
  anzahl_handlungsziele_total : Option Nat
  anzahl_kenntnisse_total : Option Nat
deriving DecidableEq, Repr

/-- A persisted profession entry as read by `compare_databases`
(only `b['name']` is accessed, but the id is part of the format). -/
structure BerufRec where
  id : Nat
  name : String
deriving DecidableEq, Repr

/-- A persisted snapshot (`it-module-master.json`). -/
structure DB where
  meta : MetaRec
  berufe : List BerufRec
  module : List MasterRec
deriving DecidableEq, Repr

/-- One row of `changes['geaenderte_module']`. -/
structure ChangedEntry where
  modul : String
  alt_datum : Option String
  neu_datum : Option String
  titel : String
deriving DecidableEq, Repr

/-- One statistics block of the report. -/
structure Stats where
  master_module : Nat
  versionen : Nat
  berufe : Nat
  handlungsziele : Nat
  kenntnisse : Nat
deriving DecidableEq, Repr

/-- The `changes` dict produced by `compare_databases`. -/
structure Changes where
  neue_module : List String
  geaenderte_module : List ChangedEntry
  geloeschte_module : List String
  neue_berufe : List String
  statistik_alt : Stats
  statistik_neu : Stats
deriving DecidableEq, Repr

/-- The version key `f"{master['nummer']}-V{version['version']}"`. -/
def versionKey (nummer version : String) : String := nummer ++ "-V" ++ version

/-- The key map built by `compare_databases` for one snapshot: a dict
from version key to the `{'master': master, 'version': version}` pair,
filled master by master, version by version. -/
def buildMap (db : DB) : List (String × (MasterRec × VersionRec)) :=
  db.module.foldl
    (fun m master =>
      master.versionen.foldl
        (fun m version =>
          insertAssoc m (versionKey master.nummer version.version) (master, version))
        m)
    []

/-- The statistics block read from a snapshot's `meta`. -/
def readStats (db : DB) : Stats :=
  { master_module := db.meta.anzahl_master_module
    versionen := db.meta.anzahl_versionen_total
    berufe := db.meta.anzahl_berufe
    handlungsziele := db.meta.anzahl_handlungsziele_total.getD 0
    kenntnisse := db.meta.anzahl_kenntnisse_total.getD 0 }

/-- Model of `compare_databases(old_db, new_db)` from `create_update_report.py`:
build both key maps; keys only in `new` are new modules, keys only in
`old` are deleted modules; keys in both with differing `content_hash`
are changed modules carrying both publication dates and the new master
title; `neue_berufe` is the sorted name-set difference new minus old. -/
def compare_databases (old_db new_db : DB) : Changes :=
  let old_modules := buildMap old_db
  let new_modules := buildMap new_db
  { neue_module :=
      (new_modules.map Prod.fst).filter
        (fun key => ¬ (lookupAssoc old_modules key).isSome)
    geloeschte_module :=
      (old_modules.map Prod.fst).filter
        (fun key => ¬ (lookupAssoc new_modules key).isSome)
    geaenderte_module :=
      new_modules.filterMap
        (fun p =>
          match lookupAssoc old_modules p.1 with
          | none => none
          | some old_entry =>
            if old_entry.2.content_hash ≠ p.2.2.content_hash then
              some { modul := p.1
                     alt_datum := old_entry.2.publikationsdatum
                     neu_datum := p.2.2.publikationsdatum
                     titel := p.2.1.titel_master }
            else none)
    neue_berufe :=
      List.insertionSort (fun a b => pyStrLe a b = true)
        (((new_db.berufe.map BerufRec.name).dedup).filter
          (fun n => n ∉ old_db.berufe.map BerufRec.name))
    statistik_alt := readStats old_db
    statistik_neu := readStats new_db }

theorem nodup_keys_foldl_insertAssoc {β γ : Type} (f : γ → String) (g : γ → β) :
    ∀ (xs : List γ) (acc : List (String × β)), (acc.map Prod.fst).Nodup →
      ((xs.foldl (fun m x => insertAssoc m (f x) (g x)) acc).map Prod.fst).Nodup := by
  intro xs
  induction xs with
  | nil => intro acc h; simpa using h
  | cons x rest ih => intro acc h; exact ih _ (nodup_keys_insertAssoc _ _ _ h)

theorem buildMap_keys_nodup_aux (ms : List MasterRec) :
    ∀ acc : List (String × (MasterRec × VersionRec)), (acc.map Prod.fst).Nodup →
    ((ms.foldl
      (fun m master =>
        master.versionen.foldl
          (fun m version =>
            insertAssoc m (versionKey master.nummer version.version) (master, version))
          m)
      acc).map Prod.fst).Nodup := by
  induction ms with
  | nil => intro acc hacc; simpa using hacc
  | cons master rest ih =>
    intro acc hacc
    exact ih _ (nodup_keys_foldl_insertAssoc
      (fun version => versionKey master.nummer version.version)
      (fun version => (master, version)) master.versionen acc hacc)

theorem buildMap_keys_nodup (db : DB) : ((buildMap db).map Prod.fst).Nodup :=
  buildMap_keys_nodup_aux db.module [] (by simp)

theorem buildMap_mem_keys_aux (ms : List MasterRec)
    (acc : List (String × (MasterRec × VersionRec))) (k : String) :
    k ∈ ((ms.foldl
      (fun m master =>
        master.versionen.foldl
          (fun m version =>
            insertAssoc m (versionKey master.nummer version.version) (master, version))
          m)
      acc).map Prod.fst) ↔
      k ∈ acc.map Prod.fst ∨
        ∃ master ∈ ms, ∃ version ∈ master.versionen,
          k = versionKey master.nummer version.version := by
  induction ms generalizing acc with
  | nil => simp
  | cons master rest ih =>
    rw [List.foldl_cons, ih]
    have hinner : ∀ acc' : List (String × (MasterRec × VersionRec)),
        k ∈ ((master.versionen.foldl
          (fun m version =>
            insertAssoc m (versionKey master.nummer version.version) (master, version))
          acc').map Prod.fst) ↔
          k ∈ acc'.map Prod.fst ∨
            ∃ version ∈ master.versionen, k = versionKey master.nummer version.version := by
      induction master.versionen with
      | nil => simp
      | cons version vs ihv =>
        intro acc'
        rw [List.foldl_cons, ihv, keys_insertAssoc_mem]
        constructor
        · rintro ((he | hm) | ⟨v', hv', he⟩)
          · exact Or.inr ⟨version, List.mem_cons_self _ _, he⟩
          · exact Or.inl hm
          · exact Or.inr ⟨v', List.mem_cons_of_mem _ hv', he⟩
        · rintro (hm | ⟨v', hv', he⟩)
          · exact Or.inl (Or.inr hm)
          · rcases List.mem_cons.1 hv' with he' | hv''
            · exact Or.inl (Or.inl (he' ▸ he))
            · exact Or.inr ⟨v', hv'', he⟩
    rw [hinner]
    constructor
    · rintro ((hm | ⟨v', hv', he⟩) | ⟨m', hm', v', hv', he⟩)
      · exact Or.inl hm
      · exact Or.inr ⟨master, List.mem_cons_self _ _, v', hv', he⟩
      · exact Or.inr ⟨m', List.mem_cons_of_mem _ hm', v', hv', he⟩
    · rintro (hm | ⟨m', hm', v', hv', he⟩)
      · exact Or.inl (Or.inl hm)
      · rcases List.mem_cons.1 hm' with he' | hm''
        · exact Or.inl (Or.inr ⟨v', he' ▸ hv', he' ▸ he⟩)
        · exact Or.inr ⟨m', hm'', v', hv', he⟩

/-- A key is present in a snapshot's key map exactly when some master of
the snapshot has a version producing that key. -/
theorem buildMap_mem_keys (db : DB) (k : String) :
    k ∈ (buildMap db).map Prod.fst ↔
      ∃ master ∈ db.module, ∃ version ∈ master.versionen,
        k = versionKey master.nummer version.version := by
  rw [buildMap, buildMap_mem_keys_aux]
  simp

end Report

namespace Report

open Scraper

/-- A version key is present in a snapshot: some master has a version
producing it. -/
def presentIn (db : DB) (k : String) : Prop :=
  ∃ master ∈ db.module, ∃ version ∈ master.versionen,
    k = versionKey master.nummer version.version

theorem presentIn_iff_isSome (db : DB) (k : String) :
    presentIn db k ↔ (lookupAssoc (buildMap db) k).isSome := by
  rw [lookupAssoc_isSome_iff_mem_keys, buildMap_mem_keys]
  exact Iff.rfl

theorem mem_neue_module_iff (old_db new_db : DB) (k : String) :
    k ∈ (compare_databases old_db new_db).neue_module ↔
      presentIn new_db k ∧ ¬ presentIn old_db k := by
  show k ∈ ((buildMap new_db).map Prod.fst).filter _ ↔ _
  rw [List.mem_filter, presentIn_iff_isSome, presentIn_iff_isSome,
    ← lookupAssoc_isSome_iff_mem_keys]
  simp

theorem mem_geloeschte_module_iff (old_db new_db : DB) (k : String) :
    k ∈ (compare_databases old_db new_db).geloeschte_module ↔
      presentIn old_db k ∧ ¬ presentIn new_db k := by
  show k ∈ ((buildMap old_db).map Prod.fst).filter _ ↔ _
  rw [List.mem_filter, presentIn_iff_isSome, presentIn_iff_isSome,
    ← lookupAssoc_isSome_iff_mem_keys]
  simp

theorem mem_geaenderte_module_iff (old_db new_db : DB) (e : ChangedEntry) :
    e ∈ (compare_databases old_db new_db).geaenderte_module ↔
      ∃ po pn, lookupAssoc (buildMap old_db) e.modul = some po ∧
        lookupAssoc (buildMap new_db) e.modul = some pn ∧
        po.2.content_hash ≠ pn.2.content_hash ∧
        e = { modul := e.modul
              alt_datum := po.2.publikationsdatum
              neu_datum := pn.2.publikationsdatum
              titel := pn.1.titel_master } := by
  show e ∈ (buildMap new_db).filterMap _ ↔ _
  rw [List.mem_filterMap]
  constructor
  · rintro ⟨⟨k, pn⟩, hmem, hf⟩
    have hlook : lookupAssoc (buildMap new_db) k = some pn :=
      lookupAssoc_eq_some_of_mem _ _ _ (buildMap_keys_nodup new_db) hmem
    rcases hcase : lookupAssoc (buildMap old_db) k with _ | po
    · rw [hcase] at hf
      simp at hf
    · rw [hcase] at hf
      dsimp only at hf
      split_ifs at hf with hh
      injection hf with hfe
      subst hfe
      exact ⟨po, pn, hcase, hlook, hh, rfl⟩
  · rintro ⟨po, pn, ho, hn, hh, he⟩
    refine ⟨(e.modul, pn), mem_of_lookupAssoc_eq_some _ _ _ hn, ?_⟩
    rw [ho]
    dsimp only
    rw [if_pos hh]
    exact congrArg some he.symm

/-- Concrete scenario: snapshot A with module 107-V1, hash "abc". -/
def dbA : DB :=
  { meta := { anzahl_master_module := 1, anzahl_versionen_total := 1,
              anzahl_berufe := 0, anzahl_handlungsziele_total := none,
              anzahl_kenntnisse_total := none }
    berufe := []
    module := [ { nummer := "107", titel_master := "Modul 107",
                  versionen := [ { version := "1", content_hash := some "abc",
                                   publikationsdatum := some "2020-01-01" } ] } ] }

/-- Concrete scenario: snapshot B with module 107-V1 re-published under
hash "xyz" and a new module 108-V1. -/
def dbB : DB :=
  { meta := { anzahl_master_module := 2, anzahl_versionen_total := 2,
              anzahl_berufe := 0, anzahl_handlungsziele_total := none,
              anzahl_kenntnisse_total := none }
    berufe := []
    module := [ { nummer := "107", titel_master := "Modul 107",
                  versionen := [ { version := "1", content_hash := some "xyz",
                                   publikationsdatum := some "2021-02-02" } ] },
                { nummer := "108", titel_master := "Modul 108",
                  versionen := [ { version := "1", content_hash := some "zzz",
                                   publikationsdatum := some "2021-03-03" } ] } ] }

/-- C1. `compare_databases` classifies version keys: in new but not old
means added; in old but not new means removed; in both with differing
content hashes (null counts as differing from non-null) means changed,
carrying both publication dates and the new master title; in both with
equal hashes means reported nowhere. On the concrete 107/108 scenario it
yields added 108-V1, changed 107-V1, removed nothing. -/
theorem claim_c1_diff_classification (old_db new_db : DB) :
    (∀ k, k ∈ (compare_databases old_db new_db).neue_module ↔
      presentIn new_db k ∧ ¬ presentIn old_db k) ∧
    (∀ k, k ∈ (compare_databases old_db new_db).geloeschte_module ↔
      presentIn old_db k ∧ ¬ presentIn new_db k) ∧
    (∀ e, e ∈ (compare_databases old_db new_db).geaenderte_module ↔
      ∃ po pn, lookupAssoc (buildMap old_db) e.modul = some po ∧
        lookupAssoc (buildMap new_db) e.modul = some pn ∧
        po.2.content_hash ≠ pn.2.content_hash ∧
        e = { modul := e.modul
              alt_datum := po.2.publikationsdatum
              neu_datum := pn.2.publikationsdatum
              titel := pn.1.titel_master }) ∧
    (∀ k po pn, lookupAssoc (buildMap old_db) k = some po →
      lookupAssoc (buildMap new_db) k = some pn →
      po.2.content_hash = pn.2.content_hash →
      k ∉ (compare_databases old_db new_db).neue_module ∧
      k ∉ (compare_databases old_db new_db).geloeschte_module ∧
      ∀ e ∈ (compare_databases old_db new_db).geaenderte_module, e.modul ≠ k) ∧
    ((compare_databases dbA dbB).neue_module = ["108-V1"] ∧
      (compare_databases dbA dbB).geaenderte_module.map ChangedEntry.modul =
        ["107-V1"] ∧
      (compare_databases dbA dbB).geloeschte_module = []) := by
  refine ⟨mem_neue_module_iff old_db new_db,
    mem_geloeschte_module_iff old_db new_db,
    mem_geaenderte_module_iff old_db new_db,
    ?_, by decide, by decide, by decide⟩
  intro k po pn ho hn hh
  refine ⟨?_, ?_, ?_⟩
  · rw [mem_neue_module_iff]
    rintro ⟨-, habs⟩
    exact habs ((presentIn_iff_isSome old_db k).2 (by rw [ho]; rfl))
  · rw [mem_geloeschte_module_iff]
    rintro ⟨-, habs⟩
    exact habs ((presentIn_iff_isSome new_db k).2 (by rw [hn]; rfl))
  · intro e hmem hek
    rcases (mem_geaenderte_module_iff old_db new_db e).1 hmem with
      ⟨po', pn', ho', hn', hh', -⟩
    rw [hek] at ho' hn'
    rw [ho] at ho'
    rw [hn] at hn'
    cases ho'
    cases hn'
    exact hh' hh

/-- Id reassignment on the professions of a snapshot (names kept). -/
def reassignIds (f : BerufRec → Nat) (db : DB) : DB :=
  { db with berufe := db.berufe.map (fun b => { id := f b, name := b.name }) }

/-- C8. The profession diff reports exactly the names present in the new
snapshot's profession list but absent from the old one's; it compares by
name only, so arbitrary id reassignments on either snapshot do not
change it; professions only in the old snapshot are never reported. -/
theorem claim_c8_profession_diff (old_db new_db : DB) :
    (∀ n, n ∈ (compare_databases old_db new_db).neue_berufe ↔
      n ∈ new_db.berufe.map BerufRec.name ∧ n ∉ old_db.berufe.map BerufRec.name) ∧
    (∀ f g : BerufRec → Nat,
      (compare_databases (reassignIds f old_db) (reassignIds g new_db)).neue_berufe =
        (compare_databases old_db new_db).neue_berufe) := by
  constructor
  · intro n
    show n ∈ List.insertionSort _ _ ↔ _
    rw [List.mem_insertionSort, List.mem_filter, List.mem_dedup]
    simp
  · intro f g
    show List.insertionSort _ _ = List.insertionSort _ _
    have hn : (new_db.berufe.map (fun b => BerufRec.mk (g b) b.name)).map BerufRec.name =
        new_db.berufe.map BerufRec.name := by
      rw [List.map_map]
      rfl
    have ho : (old_db.berufe.map (fun b => BerufRec.mk (f b) b.name)).map BerufRec.name =
        old_db.berufe.map BerufRec.name := by
      rw [List.map_map]
      rfl
    rw [reassignIds, reassignIds] at *
    simp only at hn ho ⊢
    rw [hn, ho]

end Report

namespace Agg

open Scraper

/-- Reading one group out of a `defaultdict(list)` modelled as an
association list of `(key, group)` pairs: the group of an absent key is
empty. -/
def lookupG {α : Type} (acc : List (String × List α)) (k : String) : List α :=
  match acc.find? (fun p => p.1 = k) with
  | some p => p.2
  | none => []

/-- Model of `masters[master_key].append(mod)` on a `defaultdict(list)`: append to
the existing group, or create a new singleton group at the end. -/
def addToGroup {α : Type} (acc : List (String × List α)) (k : String) (m : α) :
    List (String × List α) :=
  match acc with
  | [] => [(k, [m])]
  | (k', vs) :: rest =>
    if k' = k then (k', vs ++ [m]) :: rest else (k', vs) :: addToGroup rest k m

/-- The grouping loop `for mod in modules: masters[nm mod].append(mod)`. -/
def groupFold {α : Type} (nm : α → String) (modules : List α) :
    List (String × List α) :=
  modules.foldl (fun acc m => addToGroup acc (nm m) m) []

theorem lookupG_nil {α : Type} (k : String) : lookupG ([] : List (String × List α)) k = [] :=
  rfl

theorem lookupG_cons {α : Type} (k₀ : String) (vs : List α) (rest : List (String × List α))
    (k : String) :
    lookupG ((k₀, vs) :: rest) k = if k₀ = k then vs else lookupG rest k := by
  by_cases h : k₀ = k <;> simp [lookupG, List.find?, h]

theorem lookupG_addToGroup_self {α : Type} (acc : List (String × List α)) (k : String)
    (m : α) : lookupG (addToGroup acc k m) k = lookupG acc k ++ [m] := by
  induction acc with
  | nil => simp [addToGroup, lookupG, List.find?]
  | cons p rest ih =>
    obtain ⟨k₀, vs⟩ := p
    by_cases h : k₀ = k
    · simp only [addToGroup, if_pos h]
      rw [lookupG_cons, lookupG_cons, if_pos h, if_pos h]
    · simp only [addToGroup, if_neg h]
      rw [lookupG_cons, lookupG_cons, if_neg h, if_neg h]
      exact ih

theorem lookupG_addToGroup_other {α : Type} (acc : List (String × List α)) (k k' : String)
    (m : α) (h : ¬ k' = k) : lookupG (addToGroup acc k m) k' = lookupG acc k' := by
  induction acc with
  | nil =>
    simp only [addToGroup]
    rw [lookupG_cons, lookupG_nil, if_neg (fun he => h he.symm)]
  | cons p rest ih =>
    obtain ⟨k₀, vs⟩ := p
    by_cases h0 : k₀ = k
    · simp only [addToGroup, if_pos h0]
      rw [lookupG_cons, lookupG_cons]
      have h0' : ¬ k₀ = k' := fun he => h (he.symm.trans h0)
      rw [if_neg h0', if_neg h0']
    · simp only [addToGroup, if_neg h0]
      rw [lookupG_cons, lookupG_cons]
      by_cases h1 : k₀ = k'
      · rw [if_pos h1, if_pos h1]
      · rw [if_neg h1, if_neg h1]
        exact ih

theorem keys_addToGroup {α : Type} (acc : List (String × List α)) (k : String) (m : α) :
    (addToGroup acc k m).map Prod.fst =
      if k ∈ acc.map Prod.fst then acc.map Prod.fst else acc.map Prod.fst ++ [k] := by
  induction acc with
  | nil => simp [addToGroup]
  | cons p rest ih =>
    obtain ⟨k₀, vs⟩ := p
    by_cases h : k₀ = k
    · subst h
      simp [addToGroup, List.mem_cons_self]
    · have hne : ¬ k = k₀ := fun he => h he.symm
      simp only [addToGroup, if_neg h, List.map_cons, ih]
      by_cases hmem : k ∈ rest.map Prod.fst
      · rw [if_pos hmem, if_pos (by simp [hmem])]
      · rw [if_neg hmem, if_neg (by simp [hne, hmem]), List.cons_append]

theorem lookupG_groupFold_aux {α : Type} (nm : α → String) (xs : List α) :
    ∀ (acc : List (String × List α)) (k : String),
      lookupG (xs.foldl (fun acc m => addToGroup acc (nm m) m) acc) k =
        lookupG acc k ++ xs.filter (fun m => nm m = k) := by
  induction xs with
  | nil => intro acc k; simp
  | cons x rest ih =>
    intro acc k
    rw [List.foldl_cons, ih]
    by_cases h : nm x = k
    · rw [h, lookupG_addToGroup_self]
      have : (decide (nm x = k)) = true := by simp [h]
      simp [List.filter, this, h]
    · rw [lookupG_addToGroup_other _ _ _ _ (fun he => h he.symm)]
      have : (decide (nm x = k)) = false := by simp [h]
      simp [List.filter, this]

/-- The content of each group of `group_by_master`'s grouping stage is
exactly the input filtered to that key, in input order. -/
theorem lookupG_groupFold {α : Type} (nm : α → String) (xs : List α) (k : String) :
    lookupG (groupFold nm xs) k = xs.filter (fun m => nm m = k) := by
  rw [groupFold, lookupG_groupFold_aux]
  rfl

theorem mem_keys_groupFold_aux {α : Type} (nm : α → String) (xs : List α) :
    ∀ (acc : List (String × List α)) (k : String),
      k ∈ (xs.foldl (fun acc m => addToGroup acc (nm m) m) acc).map Prod.fst ↔
        k ∈ acc.map Prod.fst ∨ k ∈ xs.map nm := by
  induction xs with
  | nil => intro acc k; simp
  | cons x rest ih =>
    intro acc k
    rw [List.foldl_cons, ih, keys_addToGroup]
    by_cases hmem : nm x ∈ acc.map Prod.fst
    · rw [if_pos hmem]
      constructor
      · rintro (h | h)
        · exact Or.inl h
        · exact Or.inr (List.mem_cons_of_mem _ h)
      · rintro (h | h)
        · exact Or.inl h
        · rcases List.mem_cons.1 h with he | hm
          · exact Or.inl (he ▸ hmem)
          · exact Or.inr hm
    · rw [if_neg hmem]
      simp only [List.mem_append, List.mem_singleton, List.map_cons, List.mem_cons]
      tauto

theorem mem_keys_groupFold {α : Type} (nm : α → String) (xs : List α) (k : String) :
    k ∈ (groupFold nm xs).map Prod.fst ↔ k ∈ xs.map nm := by
  rw [groupFold, mem_keys_groupFold_aux]
  simp

theorem nodup_keys_groupFold_aux {α : Type} (nm : α → String) (xs : List α) :
    ∀ acc : List (String × List α), (acc.map Prod.fst).Nodup →
      ((xs.foldl (fun acc m => addToGroup acc (nm m) m) acc).map Prod.fst).Nodup := by
  induction xs with
  | nil => intro acc h; simpa using h
  | cons x rest ih =>
    intro acc h
    rw [List.foldl_cons]
    refine ih _ ?_
    rw [keys_addToGroup]
    by_cases hmem : nm x ∈ acc.map Prod.fst
    · rwa [if_pos hmem]
    · rw [if_neg hmem]
      exact List.Nodup.append h (List.nodup_singleton _)
        (by simpa [List.disjoint_singleton] using hmem)

theorem nodup_keys_groupFold {α : Type} (nm : α → String) (xs : List α) :
    ((groupFold nm xs).map Prod.fst).Nodup :=
  nodup_keys_groupFold_aux nm xs [] (by simp)

theorem find?_mapSnd {α β : Type} (f : List α → List β) (l : List (String × List α))
    (k : String) :
    ((l.map (fun p => (p.1, f p.2))).find? (fun p => p.1 = k)) =
      (l.find? (fun p => p.1 = k)).map (fun p => (p.1, f p.2)) := by
  induction l with
  | nil => simp
  | cons p rest ih =>
    obtain ⟨k₀, vs⟩ := p
    by_cases h : k₀ = k <;> simp [List.find?, h, ih]

theorem lookupG_mapSnd {α β : Type} (f : List α → List β) (hf : f [] = [])
    (l : List (String × List α)) (k : String) :
    lookupG (l.map (fun p => (p.1, f p.2))) k = f (lookupG l k) := by
  rw [lookupG, lookupG, find?_mapSnd]
  cases hfind : l.find? (fun p => p.1 = k) with
  | none => simp [hf]
  | some p => rfl

/-- Two sorted permutations of each other agree when the sort key is
injective on their members; this is why the aggregator's output cannot
depend on worker completion order once keys are distinct. -/
theorem eq_of_perm_of_sorted_key {α : Type} (key : α → Nat) :
    ∀ {l₁ l₂ : List α}, l₁.Perm l₂ →
      l₁.Sorted (fun a b => key a ≤ key b) →
      l₂.Sorted (fun a b => key a ≤ key b) →
      (∀ a ∈ l₁, ∀ b ∈ l₁, key a = key b → a = b) →
      l₁ = l₂ := by
  intro l₁
  induction l₁ with
  | nil =>
    intro l₂ hp _ _ _
    exact (hp.symm.eq_nil).symm
  | cons a t₁ ih =>
    intro l₂ hp hs₁ hs₂ hinj
    cases l₂ with
    | nil => exact absurd hp.eq_nil (by simp)
    | cons b t₂ =>
      have hab : a = b := by
        by_cases hab : a = b
        · exact hab
        · have ha : a ∈ b :: t₂ := hp.subset (List.mem_cons_self a t₁)
          have ha' : a ∈ t₂ := (List.mem_cons.1 ha).resolve_left hab
          have hb : b ∈ a :: t₁ := hp.symm.subset (List.mem_cons_self b t₂)
          have hb' : b ∈ t₁ := (List.mem_cons.1 hb).resolve_left (fun h => hab h.symm)
          have h₁ : key a ≤ key b := List.rel_of_sorted_cons hs₁ b hb'
          have h₂ : key b ≤ key a := List.rel_of_sorted_cons hs₂ a ha'
          exact hinj a (List.mem_cons_self a t₁) b (List.mem_cons_of_mem a hb')
            (Nat.le_antisymm h₁ h₂)
      subst hab
      have hp' : t₁.Perm t₂ := hp.cons_inv
      have ht : t₁ = t₂ :=
        ih hp' ((List.sorted_cons.1 hs₁).2) ((List.sorted_cons.1 hs₂).2)
          (fun x hx y hy => hinj x (List.mem_cons_of_mem a hx) y (List.mem_cons_of_mem a hy))
      rw [ht]

theorem insertionSort_canonical {α : Type} [DecidableEq α] (key : α → Nat)
    {l₁ l₂ : List α} (hp : l₁.Perm l₂)
    (hinj : ∀ a ∈ l₁, ∀ b ∈ l₁, key a = key b → a = b) :
    List.insertionSort (fun a b => key a ≤ key b) l₁ =
      List.insertionSort (fun a b => key a ≤ key b) l₂ := by
  haveI htot : IsTotal α (fun a b => key a ≤ key b) := ⟨fun a b => Nat.le_total _ _⟩
  haveI htr : IsTrans α (fun a b => key a ≤ key b) := ⟨fun a b c => Nat.le_trans⟩
  refine eq_of_perm_of_sorted_key key ?_ ?_ ?_ ?_
  · exact ((List.perm_insertionSort _ l₁).trans hp).trans
      (List.perm_insertionSort _ l₂).symm
  · exact List.sorted_insertionSort _ _
  · exact List.sorted_insertionSort _ _
  · intro x hx y hy
    exact hinj x ((List.mem_insertionSort _).1 hx) y ((List.mem_insertionSort _).1 hy)

end Agg

namespace Scraper

/-- Model of the dict comprehension building `beruf_to_id` from `berufe_liste`:
the name-to-id dict, built insertion by insertion. -/
def beruf_to_id (berufe_liste : List Beruf) : List (String × Nat) :=
  berufe_liste.foldl (fun m b => insertAssoc m b.name b.id) []

theorem lookupAssoc_beruf_to_id_aux (berufe_liste : List Beruf) :
    ∀ (acc : List (String × Nat)) (k : String) (v : Nat),
      lookupAssoc (berufe_liste.foldl (fun m b => insertAssoc m b.name b.id) acc) k = some v →
      lookupAssoc acc k = some v ∨ ∃ b ∈ berufe_liste, b.name = k ∧ b.id = v := by
  induction berufe_liste with
  | nil =>
    intro acc k v h
    exact Or.inl h
  | cons b rest ih =>
    intro acc k v h
    rw [List.foldl_cons] at h
    rcases ih _ _ _ h with hacc | ⟨b', hb', hn, hi⟩
    · rw [lookupAssoc_insertAssoc] at hacc
      by_cases hk : k = b.name
      · rw [if_pos hk] at hacc
        injection hacc with hv
        exact Or.inr ⟨b, List.mem_cons_self _ _, hk.symm, hv⟩
      · rw [if_neg hk] at hacc
        exact Or.inl hacc
    · exact Or.inr ⟨b', List.mem_cons_of_mem _ hb', hn, hi⟩

/-- A hit in the name-to-id dict always comes from an entry of the
profession list. -/
theorem lookupAssoc_beruf_to_id (berufe_liste : List Beruf) (k : String) (v : Nat)
    (h : lookupAssoc (beruf_to_id berufe_liste) k = some v) :
    ∃ b ∈ berufe_liste, b.name = k ∧ b.id = v := by
  rcases lookupAssoc_beruf_to_id_aux berufe_liste [] k v h with habs | hgood
  · rw [lookupAssoc_nil] at habs
    cases habs
  · exact hgood

end Scraper

namespace V3

open Scraper

/-- One `{'nummer': ..., 'beschreibung': ...}` Handlungsziel as scraped
by `module_scraper_v3.py` (no knowledge items in v3). -/
structure HZ where
  nummer : String
  beschreibung : String
deriving DecidableEq, Repr

/-- One module-version record of `module_scraper_v3.py` after
`module.update(details)`: the list fields plus the optional detail
fields (`publikationsdatum`/`content_hash` are absent when the date
pattern did not match). -/
structure ModuleEntry where
  nummer : String
  version : String
  titel : String
  detail_url : String
  publikationsdatum : Option String
  content_hash : Option String
  handlungsziele : List HZ
  berufe : List String
  letzter_check : String
deriving DecidableEq, Repr

/-- Model of `group_by_master(modules)` of `module_scraper_v3.py`: group by
`nummer` with `defaultdict(list)`, then stable-sort each group by
`int(x['version'])`. -/
def group_by_master (modules : List ModuleEntry) : List (String × List ModuleEntry) :=
  (Agg.groupFold (fun m => m.nummer) modules).map
    (fun p => (p.1, List.insertionSort (fun a b => pyInt a.version ≤ pyInt b.version) p.2))

/-- A version as written into the final JSON: `berufe` replaced by
`berufe_ids` (`[beruf_to_id.get(b) for b in ver['berufe'] if b in
beruf_to_id]`), `detail_url` deleted. -/
structure VersionOut where
  nummer : String
  version : String
  titel : String
  publikationsdatum : Option String
  content_hash : Option String
  handlungsziele : List HZ
  berufe_ids : List (Option Nat)
  letzter_check : String
deriving DecidableEq, Repr

/-- One master module of the final JSON. -/
structure MasterModule where
  master_id : String
  nummer : String
  titel_master : String
  anzahl_versionen : Nat
  versionen : List VersionOut
deriving DecidableEq, Repr

/-- The version rewrite performed inside `save_final_json`'s loop. -/
def processVersion (beruf_map : List (String × Nat)) (v : ModuleEntry) : VersionOut :=
  { nummer := v.nummer
    version := v.version
    titel := v.titel
    publikationsdatum := v.publikationsdatum
    content_hash := v.content_hash
    handlungsziele := v.handlungsziele
    berufe_ids := (v.berufe.filter (fun b => (lookupAssoc beruf_map b).isSome)).map
      (fun b => lookupAssoc beruf_map b)
    letzter_check := v.letzter_check }

/-- One master entry of `save_final_json`'s output for one `nummer`:
`versionen[-1]` supplies the master title (`.get('titel', '')` with the
empty default; groups produced by `group_by_master` are nonempty, so
`getLast?` always hits). -/
def mkMaster (beruf_map : List (String × Nat)) (masters : List (String × List ModuleEntry))
    (nummer : String) : MasterModule :=
  let versionen := (Agg.lookupG masters nummer).map (processVersion beruf_map)
  { master_id := "M" ++ nummer
    nummer := nummer
    titel_master := ((versionen.getLast?).map VersionOut.titel).getD ""
    anzahl_versionen := versionen.length
    versionen := versionen }

/-- The master-module list built by `save_final_json`:
`for nummer in sorted(masters.keys(), key=int)`. -/
def build_master_modules (masters : List (String × List ModuleEntry))
    (berufe_liste : List Beruf) : List MasterModule :=
  (List.insertionSort (fun a b => pyInt a ≤ pyInt b) (masters.map Prod.fst)).map
    (mkMaster (beruf_to_id berufe_liste) masters)

/-- The final JSON of `save_final_json` (the `meta` strings `quelle` /
`erstellt` / `system`, which carry the clock reading, are omitted). -/
structure Output where
  anzahl_master_module : Nat
  anzahl_versionen_total : Nat
  anzahl_berufe : Nat
  berufe : List Beruf
  module : List MasterModule
deriving DecidableEq, Repr

def save_final_json (masters : List (String × List ModuleEntry))
    (berufe_liste : List Beruf) : Output :=
  let master_modules := build_master_modules masters berufe_liste
  { anzahl_master_module := master_modules.length
    anzahl_versionen_total := (master_modules.map MasterModule.anzahl_versionen).sum
    anzahl_berufe := berufe_liste.length
    berufe := berufe_liste
    module := master_modules }

theorem mkMaster_nummer (beruf_map : List (String × Nat))
    (masters : List (String × List ModuleEntry)) (nummer : String) :
    (mkMaster beruf_map masters nummer).nummer = nummer := rfl

theorem mkMaster_versionen (beruf_map : List (String × Nat))
    (masters : List (String × List ModuleEntry)) (nummer : String) :
    (mkMaster beruf_map masters nummer).versionen =
      (Agg.lookupG masters nummer).map (processVersion beruf_map) := rfl

theorem keys_group_by_master (modules : List ModuleEntry) :
    (group_by_master modules).map Prod.fst =
      (Agg.groupFold (fun m => m.nummer) modules).map Prod.fst := by
  rw [group_by_master, List.map_map]
  rfl

theorem lookupG_group_by_master (modules : List ModuleEntry) (k : String) :
    Agg.lookupG (group_by_master modules) k =
      List.insertionSort (fun a b => pyInt a.version ≤ pyInt b.version)
        (modules.filter (fun m => m.nummer = k)) := by
  rw [group_by_master,
    Agg.lookupG_mapSnd
      (List.insertionSort (fun a b : ModuleEntry => pyInt a.version ≤ pyInt b.version)) rfl,
    Agg.lookupG_groupFold]

theorem mkMaster_congr (beruf_map : List (String × Nat))
    (m₁ m₂ : List (String × List ModuleEntry)) (k : String)
    (h : Agg.lookupG m₁ k = Agg.lookupG m₂ k) :
    mkMaster beruf_map m₁ k = mkMaster beruf_map m₂ k := by
  unfold mkMaster
  rw [h]

theorem build_master_modules_perm_eq (xs ys : List ModuleEntry) (berufe_liste : List Beruf)
    (hmaster : ∀ a ∈ xs, ∀ b ∈ xs, pyInt a.nummer = pyInt b.nummer → a.nummer = b.nummer)
    (hver : ∀ a ∈ xs, ∀ b ∈ xs, a.nummer = b.nummer →
      pyInt a.version = pyInt b.version → a = b)
    (hp : xs.Perm ys) :
    build_master_modules (group_by_master xs) berufe_liste =
      build_master_modules (group_by_master ys) berufe_liste := by
  have hlook : ∀ k, Agg.lookupG (group_by_master xs) k =
      Agg.lookupG (group_by_master ys) k := by
    intro k
    rw [lookupG_group_by_master, lookupG_group_by_master]
    apply Agg.insertionSort_canonical (fun m : ModuleEntry => pyInt m.version)
    · exact hp.filter _
    · intro a ha b hb hk
      rw [List.mem_filter] at ha hb
      have hnum : a.nummer = b.nummer := by
        have ha2 : a.nummer = k := by simpa using ha.2
        have hb2 : b.nummer = k := by simpa using hb.2
        rw [ha2, hb2]
      exact hver a ha.1 b hb.1 hnum hk
  have hknodx := Agg.nodup_keys_groupFold (fun m => m.nummer) xs
  have hknody := Agg.nodup_keys_groupFold (fun m => m.nummer) ys
  have hpk : ((Agg.groupFold (fun m => m.nummer) xs).map Prod.fst).Perm
      ((Agg.groupFold (fun m => m.nummer) ys).map Prod.fst) := by
    rw [List.perm_ext_iff_of_nodup hknodx hknody]
    intro k
    rw [Agg.mem_keys_groupFold, Agg.mem_keys_groupFold]
    exact (hp.map _).mem_iff
  have hinjk : ∀ a ∈ (Agg.groupFold (fun m => m.nummer) xs).map Prod.fst,
      ∀ b ∈ (Agg.groupFold (fun m => m.nummer) xs).map Prod.fst,
      pyInt a = pyInt b → a = b := by
    intro a ha b hb hk
    rw [Agg.mem_keys_groupFold] at ha hb
    rcases List.mem_map.1 ha with ⟨ma, hma, hae⟩
    rcases List.mem_map.1 hb with ⟨mb, hmb, hbe⟩
    subst hae
    subst hbe
    exact hmaster ma hma mb hmb hk
  rw [build_master_modules, build_master_modules,
    keys_group_by_master, keys_group_by_master,
    Agg.insertionSort_canonical pyInt hpk hinjk]
  exact List.map_congr_left
    (fun k _ => mkMaster_congr _ (group_by_master xs) (group_by_master ys) k (hlook k))

theorem build_master_modules_sorted (masters : List (String × List ModuleEntry))
    (berufe_liste : List Beruf) :
    (build_master_modules masters berufe_liste).Sorted
      (fun m₁ m₂ => pyInt m₁.nummer ≤ pyInt m₂.nummer) := by
  haveI : IsTotal String (fun a b => pyInt a ≤ pyInt b) := ⟨fun a b => Nat.le_total _ _⟩
  haveI : IsTrans String (fun a b => pyInt a ≤ pyInt b) := ⟨fun a b c => Nat.le_trans⟩
  rw [build_master_modules, List.Sorted, List.pairwise_map]
  exact List.sorted_insertionSort (fun a b => pyInt a ≤ pyInt b) (masters.map Prod.fst)

theorem build_master_modules_versionen_sorted (xs : List ModuleEntry)
    (berufe_liste : List Beruf) (m : MasterModule)
    (hm : m ∈ build_master_modules (group_by_master xs) berufe_liste) :
    m.versionen.Sorted (fun v₁ v₂ => pyInt v₁.version ≤ pyInt v₂.version) := by
  haveI : IsTotal ModuleEntry (fun a b => pyInt a.version ≤ pyInt b.version) :=
    ⟨fun a b => Nat.le_total _ _⟩
  haveI : IsTrans ModuleEntry (fun a b => pyInt a.version ≤ pyInt b.version) :=
    ⟨fun a b c => Nat.le_trans⟩
  rw [build_master_modules] at hm
  rcases List.mem_map.1 hm with ⟨k, _, he⟩
  rw [← he, mkMaster_versionen, lookupG_group_by_master, List.Sorted, List.pairwise_map]
  exact List.sorted_insertionSort (fun a b => pyInt a.version ≤ pyInt b.version)
    (xs.filter (fun m => m.nummer = k))

/-- C4 (amended). The aggregator's output is sorted ascending by numeric
module number and each master's versions ascending by numeric version;
and when no two entries share the same numeric module number and numeric
version, and numerically equal module numbers are string-equal, the
output is identical for any two permutations of the input (any worker
completion order). -/
theorem claim_c4_aggregator_determinism (xs ys : List ModuleEntry)
    (berufe_liste : List Beruf)
    (hmaster : ∀ a ∈ xs, ∀ b ∈ xs, pyInt a.nummer = pyInt b.nummer → a.nummer = b.nummer)
    (hver : ∀ a ∈ xs, ∀ b ∈ xs, a.nummer = b.nummer →
      pyInt a.version = pyInt b.version → a = b)
    (hp : xs.Perm ys) :
    build_master_modules (group_by_master xs) berufe_liste =
      build_master_modules (group_by_master ys) berufe_liste ∧
    (build_master_modules (group_by_master xs) berufe_liste).Sorted
      (fun m₁ m₂ => pyInt m₁.nummer ≤ pyInt m₂.nummer) ∧
    ∀ m ∈ build_master_modules (group_by_master xs) berufe_liste,
      m.versionen.Sorted (fun v₁ v₂ => pyInt v₁.version ≤ pyInt v₂.version) :=
  ⟨build_master_modules_perm_eq xs ys berufe_liste hmaster hver hp,
    build_master_modules_sorted _ _,
    fun m hm => build_master_modules_versionen_sorted xs berufe_liste m hm⟩

/-- A duplicate-key entry used to refute the unconditional determinism
claim: same module number and version, different title. -/
def dupEntry (t : String) : ModuleEntry :=
  { nummer := "107", version := "1", titel := t, detail_url := ""
    publikationsdatum := none, content_hash := none
    handlungsziele := [], berufe := [], letzter_check := "" }

/-- C4 counterexample: with two entries sharing the key (107, 1) but
differing in title, the two input orders are permutations of each other
yet the aggregated outputs differ (the stable version sort keeps input
order for equal keys, so `versionen[-1]` supplies different master
titles). -/
theorem claim_c4_counterexample :
    ([dupEntry "a", dupEntry "b"] : List ModuleEntry).Perm [dupEntry "b", dupEntry "a"] ∧
    build_master_modules (group_by_master [dupEntry "a", dupEntry "b"]) [] ≠
      build_master_modules (group_by_master [dupEntry "b", dupEntry "a"]) [] :=
  ⟨List.Perm.swap (dupEntry "b") (dupEntry "a") [], by decide⟩

/-- Distinct-key entries used to witness the amended determinism claim. -/
def wEntry (n v : String) : ModuleEntry :=
  { nummer := n, version := v, titel := "T" ++ n, detail_url := ""
    publikationsdatum := none, content_hash := none
    handlungsziele := [], berufe := [], letzter_check := "" }

/-- Witness for C4: the amended theorem applied to a concrete two-entry
input and its swap. -/
theorem claim_c4_witness :
    build_master_modules (group_by_master [wEntry "108" "1", wEntry "107" "2"]) [] =
      build_master_modules (group_by_master [wEntry "107" "2", wEntry "108" "1"]) [] ∧
    (build_master_modules (group_by_master [wEntry "108" "1", wEntry "107" "2"]) []).Sorted
      (fun m₁ m₂ => pyInt m₁.nummer ≤ pyInt m₂.nummer) ∧
    ∀ m ∈ build_master_modules (group_by_master [wEntry "108" "1", wEntry "107" "2"]) [],
      m.versionen.Sorted (fun v₁ v₂ => pyInt v₁.version ≤ pyInt v₂.version) :=
  claim_c4_aggregator_determinism
    [wEntry "108" "1", wEntry "107" "2"] [wEntry "107" "2", wEntry "108" "1"] []
    (by decide) (by decide)
    (List.Perm.swap (wEntry "107" "2") (wEntry "108" "1") [])

end V3

namespace V3

open Scraper

/-- C10. In the final JSON built from a `create_beruf_mapping` profession
list, every entry of every version's `berufe_ids` is `some id` for a
profession present in the top-level `berufe` list, whose id lies in
`1..N`: the substitution filters names absent from the mapping before
looking them up, so no null and no dangling id is emitted. -/
theorem claim_c10_berufe_ids_valid (masters : List (String × List ModuleEntry))
    (all_berufe : List String) (m : MasterModule)
    (hm : m ∈ (save_final_json masters (create_beruf_mapping all_berufe)).module)
    (v : VersionOut) (hv : v ∈ m.versionen) (x : Option Nat) (hx : x ∈ v.berufe_ids) :
    ∃ b ∈ (save_final_json masters (create_beruf_mapping all_berufe)).berufe,
      x = some b.id ∧ 1 ≤ b.id ∧
        b.id ≤ (save_final_json masters (create_beruf_mapping all_berufe)).berufe.length := by
  have hm' : m ∈ build_master_modules masters (create_beruf_mapping all_berufe) := hm
  rw [build_master_modules] at hm'
  rcases List.mem_map.1 hm' with ⟨k, _, he⟩
  rw [← he, mkMaster_versionen] at hv
  rcases List.mem_map.1 hv with ⟨u, _, hue⟩
  rw [← hue] at hx
  have hx' : x ∈ (u.berufe.filter
      (fun b => (lookupAssoc (beruf_to_id (create_beruf_mapping all_berufe)) b).isSome)).map
      (fun b => lookupAssoc (beruf_to_id (create_beruf_mapping all_berufe)) b) := hx
  rcases List.mem_map.1 hx' with ⟨bn, hbn, hbe⟩
  rw [List.mem_filter] at hbn
  have hsome : (lookupAssoc (beruf_to_id (create_beruf_mapping all_berufe)) bn).isSome := by
    simpa using hbn.2
  rcases Option.isSome_iff_exists.1 hsome with ⟨i, hi⟩
  rcases lookupAssoc_beruf_to_id (create_beruf_mapping all_berufe) bn i hi with
    ⟨b, hbL, _, hbid⟩
  have hlen : (create_beruf_mapping all_berufe).length =
      (List.insertionSort (fun a b => pyStrLe a b = true) all_berufe.dedup).length := by
    have hnames := congrArg List.length (create_beruf_mapping_names all_berufe)
    simpa using hnames
  have hbounds := mem_assignIds_bounds 1
    (List.insertionSort (fun a b => pyStrLe a b = true) all_berufe.dedup) b
    (by rw [create_beruf_mapping] at hbL; exact hbL)
  refine ⟨b, hbL, ?_, hbounds.1, ?_⟩
  · rw [← hbe, hi, hbid]
  · show b.id ≤ (create_beruf_mapping all_berufe).length
    rw [hlen]
    omega

/-- A concrete module entry carrying one known profession name, used to
witness C10. -/
def w10Entry : ModuleEntry :=
  { nummer := "107", version := "1", titel := "T", detail_url := ""
    publikationsdatum := none, content_hash := none
    handlungsziele := [], berufe := ["Informatiker EFZ"], letzter_check := "" }

/-- Witness for C10: the theorem applied to a one-module, one-profession
snapshot. -/
theorem claim_c10_witness :
    ∃ b ∈ (save_final_json [("107", [w10Entry])]
        (create_beruf_mapping ["Informatiker EFZ"])).berufe,
      (some 1 : Option Nat) = some b.id ∧ 1 ≤ b.id ∧
        b.id ≤ (save_final_json [("107", [w10Entry])]
          (create_beruf_mapping ["Informatiker EFZ"])).berufe.length :=
  claim_c10_berufe_ids_valid [("107", [w10Entry])] ["Informatiker EFZ"]
    { master_id := "M107", nummer := "107", titel_master := "T", anzahl_versionen := 1
      versionen := [ { nummer := "107", version := "1", titel := "T"
                       publikationsdatum := none, content_hash := none
                       handlungsziele := [], berufe_ids := [some 1]
                       letzter_check := "" } ] }
    (by decide)
    { nummer := "107", version := "1", titel := "T"
      publikationsdatum := none, content_hash := none
      handlungsziele := [], berufe_ids := [some 1], letzter_check := "" }
    (by decide) (some 1) (by decide)

end V3

namespace Phase2

open Scraper

/-- A Handlungsziel of `phase2_parse.py`: the
`handlungsnotwendige_kenntnisse` key is only set when the knowledge
pattern matched at least once, so absence (`none`) and presence are
distinct states. -/
structure HZ where
  nummer : String
  beschreibung : String
  handlungsnotwendige_kenntnisse : Option (List String)
deriving DecidableEq, Repr

/-- One `mat-expansion-panel` as seen by `parse_module_html`: the header
node and the `mat-expansion-panel-content` node may each be missing, and
each yields a text when present. -/
structure Panel where
  header : Option String
  content : Option String
deriving DecidableEq, Repr

/-- Python whitespace for `str.strip()` and `\s`. -/
def isPyWhitespace (c : Char) : Bool :=
  c = ' ' ∨ c = '\t' ∨ c = '\n' ∨ c = '\r' ∨ c.toNat = 11 ∨ c.toNat = 12

/-- Python `s.strip()`. -/
def pyStrip (s : String) : String :=
  ((s.toList.dropWhile isPyWhitespace).reverse.dropWhile isPyWhitespace).reverse.asString

/-- Model of the goal-header pattern match: leading digits, a dot, skipped
whitespace, then the rest of the line as group 2. -/
def matchGoalHeader (s : String) : Option (String × String) :=
  let cs := s.toList
  let digits := cs.takeWhile Char.isDigit
  let rest := cs.drop digits.length
  match digits, rest with
  | [], _ => none
  | _, [] => none
  | _, c :: rest' =>
    if c = '.' then
      some (digits.asString,
        ((rest'.dropWhile isPyWhitespace).takeWhile (fun ch => ch ≠ '\n')).asString)
    else none

/-- Parsing of one panel inside `parse_module_html` (lines 52-79 of
`phase2_parse.py`). The knowledge regex
`\d+\.\s*Kennt[^\.]+(?:\([^\)]+\))?\.(?:\s*\([^\)]+\))?` application
`re.findall(...)` is the abstract parameter `findall` (the regex engine
is an external capability); everything around it is modelled: a panel
without header or whose header does not match the goal pattern yields no
goal, and `handlungsnotwendige_kenntnisse` is set only when `findall`
returns a non-empty match list (`if kenntnisse:`). -/
def parsePanel (findall : String → List String) (p : Panel) : Option HZ :=
  match p.header with
  | none => none
  | some h =>
    match matchGoalHeader (pyStrip h) with
    | none => none
    | some (num, besch) =>
      some { nummer := num
             beschreibung := pyStrip besch
             handlungsnotwendige_kenntnisse :=
               match p.content with
               | none => none
               | some c =>
                 let kenntnisse := findall (pyStrip c)
                 if kenntnisse = [] then none else some (kenntnisse.map pyStrip) }

/-- The Handlungsziele list of one parsed module document. -/
def parse_handlungsziele (findall : String → List String) (panels : List Panel) : List HZ :=
  panels.filterMap (parsePanel findall)

/-- One parsed module version of `phase2_parse.py`. -/
structure Version where
  nummer : String
  version : String
  titel : String
  publikationsdatum : Option String
  content_hash : Option String
  handlungsziele : List HZ
  berufe : List String
  letzter_check : String
deriving DecidableEq, Repr

/-- Model of `group_by_master` of `phase2_parse.py` (same algorithm as v3). -/
def group_by_master (modules : List Version) : List (String × List Version) :=
  (Agg.groupFold (fun m => m.nummer) modules).map
    (fun p => (p.1, List.insertionSort (fun a b => pyInt a.version ≤ pyInt b.version) p.2))

/-- A version as written into the final JSON by `save_final_json`:
`berufe` replaced by `berufe_ids`; `handlungsziele` carried unchanged. -/
structure VersionOut where
  nummer : String
  version : String
  titel : String
  publikationsdatum : Option String
  content_hash : Option String
  handlungsziele : List HZ
  berufe_ids : List (Option Nat)
  letzter_check : String
deriving DecidableEq, Repr

structure MasterModule where
  master_id : String
  nummer : String
  titel_master : String
  anzahl_versionen : Nat
  versionen : List VersionOut
deriving DecidableEq, Repr

def processVersion (beruf_map : List (String × Nat)) (v : Version) : VersionOut :=
  { nummer := v.nummer
    version := v.version
    titel := v.titel
    publikationsdatum := v.publikationsdatum
    content_hash := v.content_hash
    handlungsziele := v.handlungsziele
    berufe_ids := (v.berufe.filter (fun b => (lookupAssoc beruf_map b).isSome)).map
      (fun b => lookupAssoc beruf_map b)
    letzter_check := v.letzter_check }

def mkMaster (beruf_map : List (String × Nat)) (masters : List (String × List Version))
    (nummer : String) : MasterModule :=
  let versionen := (Agg.lookupG masters nummer).map (processVersion beruf_map)
  { master_id := "M" ++ nummer
    nummer := nummer
    titel_master := ((versionen.getLast?).map VersionOut.titel).getD ""
    anzahl_versionen := versionen.length
    versionen := versionen }

def build_master_modules (masters : List (String × List Version))
    (berufe_liste : List Beruf) : List MasterModule :=
  (List.insertionSort (fun a b => pyInt a ≤ pyInt b) (masters.map Prod.fst)).map
    (mkMaster (beruf_to_id berufe_liste) masters)

/-- The final JSON of `phase2_parse.py`'s `save_final_json`, including
its knowledge statistics (clock fields omitted). -/
structure Output where
  anzahl_master_module : Nat
  anzahl_versionen_total : Nat
  anzahl_berufe : Nat
  anzahl_handlungsziele_total : Nat
  anzahl_kenntnisse_total : Nat
  versionen_mit_kenntnissen : Nat
  berufe : List Beruf
  module : List MasterModule
deriving DecidableEq, Repr

def kenntnisseLen (hz : HZ) : Nat :=
  match hz.handlungsnotwendige_kenntnisse with
  | none => 0
  | some ks => ks.length

def hasKenntnisse (hz : HZ) : Nat :=
  match hz.handlungsnotwendige_kenntnisse with
  | none => 0
  | some _ => 1

def save_final_json (masters : List (String × List Version))
    (berufe_liste : List Beruf) : Output :=
  let master_modules := build_master_modules masters berufe_liste
  { anzahl_master_module := master_modules.length
    anzahl_versionen_total := (master_modules.map MasterModule.anzahl_versionen).sum
    anzahl_berufe := berufe_liste.length
    anzahl_handlungsziele_total :=
      (master_modules.map (fun m =>
        (m.versionen.map (fun v => v.handlungsziele.length)).sum)).sum
    anzahl_kenntnisse_total :=
      (master_modules.map (fun m =>
        (m.versionen.map (fun v => (v.handlungsziele.map kenntnisseLen).sum)).sum)).sum
    versionen_mit_kenntnissen :=
      (master_modules.map (fun m =>
        (m.versionen.map (fun v => (v.handlungsziele.map hasKenntnisse).sum)).sum)).sum
    berufe := berufe_liste
    module := master_modules }

theorem mkMaster_versionen_p2 (beruf_map : List (String × Nat))
    (masters : List (String × List Version)) (nummer : String) :
    (mkMaster beruf_map masters nummer).versionen =
      (Agg.lookupG masters nummer).map (processVersion beruf_map) := rfl

theorem lookupG_group_by_master_p2 (modules : List Version) (k : String) :
    Agg.lookupG (group_by_master modules) k =
      List.insertionSort (fun a b => pyInt a.version ≤ pyInt b.version)
        (modules.filter (fun m => m.nummer = k)) := by
  rw [group_by_master,
    Agg.lookupG_mapSnd
      (List.insertionSort (fun a b : Version => pyInt a.version ≤ pyInt b.version)) rfl,
    Agg.lookupG_groupFold]

/-- C9. A goal section whose content yields no knowledge-pattern matches
(or has no content node at all) is parsed with the
`handlungsnotwendige_kenntnisse` field absent, not empty; and
aggregation into the final snapshot carries every version's
`handlungsziele` records through unchanged, so the absence survives into
the persisted output. -/
theorem claim_c9_kenntnisse_absent (findall : String → List String) (p : Panel) (hz : HZ)
    (hparse : parsePanel findall p = some hz)
    (hempty : ∀ c, p.content = some c → findall (pyStrip c) = []) :
    hz.handlungsnotwendige_kenntnisse = none ∧
    ∀ (modules : List Version) (berufe_liste : List Beruf),
      ∀ m ∈ (save_final_json (group_by_master modules) berufe_liste).module,
      ∀ v ∈ m.versionen, ∃ u ∈ modules,
        u.nummer = v.nummer ∧ u.version = v.version ∧
          v.handlungsziele = u.handlungsziele := by
  constructor
  · rw [parsePanel] at hparse
    rcases hh : p.header with _ | h
    · rw [hh] at hparse
      cases hparse
    · rw [hh] at hparse
      dsimp only at hparse
      rcases hm : matchGoalHeader (pyStrip h) with _ | nb
      · rw [hm] at hparse
        cases hparse
      · obtain ⟨num, besch⟩ := nb
        rw [hm] at hparse
        dsimp only at hparse
        injection hparse with he
        rw [← he]
        rcases hc : p.content with _ | c
        · simp [hc]
        · simp only [hc]
          rw [hempty c hc]
          rfl
  · intro modules berufe_liste m hm v hv
    have hm' : m ∈ build_master_modules (group_by_master modules) berufe_liste := hm
    rw [build_master_modules] at hm'
    rcases List.mem_map.1 hm' with ⟨k, _, he⟩
    rw [← he, mkMaster_versionen_p2] at hv
    rcases List.mem_map.1 hv with ⟨u, hu, hue⟩
    rw [lookupG_group_by_master_p2] at hu
    have hu' : u ∈ modules.filter (fun m => m.nummer = k) :=
      (List.mem_insertionSort _).1 hu
    exact ⟨u, (List.mem_filter.1 hu').1, by rw [← hue]; rfl, by rw [← hue]; rfl,
      by rw [← hue]; rfl⟩

/-- Witness for C9: a concrete panel whose content has no knowledge
matches parses to a goal without the knowledge field. -/
theorem claim_c9_witness :
    ({ nummer := "1", beschreibung := "Ziel", handlungsnotwendige_kenntnisse := none }
      : HZ).handlungsnotwendige_kenntnisse = none ∧
    ∀ (modules : List Version) (berufe_liste : List Beruf),
      ∀ m ∈ (save_final_json (group_by_master modules) berufe_liste).module,
      ∀ v ∈ m.versionen, ∃ u ∈ modules,
        u.nummer = v.nummer ∧ u.version = v.version ∧
          v.handlungsziele = u.handlungsziele :=
  claim_c9_kenntnisse_absent (fun _ => [])
    { header := some "1. Ziel", content := some "Inhalt ohne Muster" }
    { nummer := "1", beschreibung := "Ziel", handlungsnotwendige_kenntnisse := none }
    (by decide) (fun c _ => rfl)

end Phase2

namespace Retry

/-- The constant `MAX_RETRIES` (same in v2, v3, parallel, phase1). -/
def MAX_RETRIES : Nat := 3

/-- The constant `RETRY_DELAY` in seconds. -/
def RETRY_DELAY : Nat := 2

/-- Observable behavior of one `scrape_with_retry` call: the returned or
raised outcome (`none` only when the loop body never runs, i.e.
`max_retries = 0`), the number of fetch attempts made, and the sequence
of back-off sleeps, in order. -/
structure RetryTrace where
  result : Option (Except String String)
  attempts : Nat
  delays : List Nat
deriving Repr

/-- The retry loop `for attempt in range(max_retries)` with the fetch
outcome of attempt `i` given by the oracle `fetch i`: on success return;
on failure sleep `delayOf attempt` and continue unless this was the last
attempt, in which case re-raise. `rem` is the number of loop iterations
left (`max_retries - attempt`). -/
def retryGo (fetch : Nat → Except String String) (maxR : Nat) (delayOf : Nat → Nat) :
    Nat → Nat → RetryTrace
  | 0, _ => { result := none, attempts := 0, delays := [] }
  | rem + 1, attempt =>
    match fetch attempt with
    | Except.ok html => { result := some (Except.ok html), attempts := 1, delays := [] }
    | Except.error e =>
      if attempt < maxR - 1 then
        let t := retryGo fetch maxR delayOf rem (attempt + 1)
        { result := t.result, attempts := t.attempts + 1, delays := delayOf attempt :: t.delays }
      else { result := some (Except.error e), attempts := 1, delays := [] }

/-- Model of `scrape_with_retry` of `module_scraper_v2.py` / `module_scraper_v3.py`:
exponential back-off `RETRY_DELAY * (2 ** attempt)`. -/
def scrape_with_retry_v3 (fetch : Nat → Except String String) (max_retries : Nat) :
    RetryTrace :=
  retryGo fetch max_retries (fun attempt => RETRY_DELAY * 2 ^ attempt) max_retries 0

/-- Model of `scrape_with_retry` of `module_scraper_parallel.py` / `phase1_download.py`:
constant sleep `time.sleep(RETRY_DELAY)`, no exponential back-off. -/
def scrape_with_retry_parallel (fetch : Nat → Except String String) (max_retries : Nat) :
    RetryTrace :=
  retryGo fetch max_retries (fun _ => RETRY_DELAY) max_retries 0

theorem retryGo_attempts_le (fetch : Nat → Except String String) (maxR : Nat)
    (delayOf : Nat → Nat) :
    ∀ rem attempt, (retryGo fetch maxR delayOf rem attempt).attempts ≤ rem := by
  intro rem
  induction rem with
  | zero => intro attempt; simp [retryGo]
  | succ r ih =>
    intro attempt
    rw [retryGo]
    cases fetch attempt with
    | ok h => simp
    | error e =>
      dsimp only
      by_cases hc : attempt < maxR - 1
      · rw [if_pos hc]
        dsimp only
        have := ih (attempt + 1)
        omega
      · rw [if_neg hc]
        simp

theorem retryGo_delays (fetch : Nat → Except String String) (maxR : Nat)
    (delayOf : Nat → Nat) :
    ∀ rem attempt, ∃ n,
      (retryGo fetch maxR delayOf rem attempt).delays = (List.range' attempt n).map delayOf := by
  intro rem
  induction rem with
  | zero => intro attempt; exact ⟨0, rfl⟩
  | succ r ih =>
    intro attempt
    rw [retryGo]
    cases fetch attempt with
    | ok h => exact ⟨0, rfl⟩
    | error e =>
      dsimp only
      by_cases hc : attempt < maxR - 1
      · rw [if_pos hc]
        dsimp only
        rcases ih (attempt + 1) with ⟨n, hn⟩
        exact ⟨n + 1, by rw [hn, List.range'_succ, List.map_cons]⟩
      · rw [if_neg hc]
        exact ⟨0, rfl⟩

theorem retryGo_all_fail (fetch : Nat → Except String String) (maxR : Nat)
    (delayOf : Nat → Nat) (e : Nat → String)
    (hf : ∀ i, i < maxR → fetch i = Except.error (e i)) :
    ∀ rem attempt, attempt + rem = maxR → 0 < rem →
      (retryGo fetch maxR delayOf rem attempt).result =
        some (Except.error (e (maxR - 1))) := by
  intro rem
  induction rem with
  | zero =>
    intro attempt _ h0
    exact absurd h0 (by omega)
  | succ r ih =>
    intro attempt hsum _
    have hlt : attempt < maxR := by omega
    rw [retryGo, hf attempt hlt]
    dsimp only
    by_cases hc : attempt < maxR - 1
    · rw [if_pos hc]
      exact ih (attempt + 1) (by omega) (by omega)
    · rw [if_neg hc]
      have hcc : attempt = maxR - 1 := by omega
      rw [hcc]

/-- C5 counterexample: in `module_scraper_parallel.py` (one of the cited
retry implementations) the wait before each retry is the constant
`RETRY_DELAY`, not `RETRY_DELAY * 2 ** attempt`: with every fetch
failing, the two recorded sleeps are `[2, 2]`, not the `[2, 4]` the
claimed back-off formula demands. -/
theorem claim_c5_counterexample :
    (scrape_with_retry_parallel (fun _ => Except.error "timeout") MAX_RETRIES).delays =
      [RETRY_DELAY, RETRY_DELAY] ∧
    [RETRY_DELAY, RETRY_DELAY] ≠
      [RETRY_DELAY * 2 ^ 0, RETRY_DELAY * 2 ^ 1] := by
  constructor
  · rfl
  · decide

end Retry

namespace V3Main

open Scraper

/-- The constant `BATCH_SIZE` of `module_scraper_v2.py` / `module_scraper_v3.py`. -/
def BATCH_SIZE : Nat := 50

/-- State of `module_scraper_v3.py`'s `main` loop (lines 241-259):
plain counters plus, for the statements below, the list of keys the loop
has iterated over. `saveCalls` counts invocations of `save_progress`;
v3's `main` never calls it (its batch-boundary branch at lines 252-253
only prints), so no transition below increments it. -/
structure St where
  completed : Nat
  failed : Nat
  saveCalls : Nat
  processed : List String
deriving DecidableEq, Repr

/-- One iteration of v3's `main` loop: `scrape_module_detail` either
succeeds (`completed += 1`; at `(i+1) % BATCH_SIZE == 0` only a progress
message is printed, nothing is persisted) or raises (caught by the
`except`: `failed += 1`, loop continues). -/
def step (detail : RawEntry → Except String Unit) (st : St) (m : RawEntry) : St :=
  match detail m with
  | Except.ok _ =>
    { st with completed := st.completed + 1, processed := st.processed ++ [rawKey m] }
  | Except.error _ =>
    { st with failed := st.failed + 1, processed := st.processed ++ [rawKey m] }

def st0 : St := { completed := 0, failed := 0, saveCalls := 0, processed := [] }

/-- The whole v3 detail loop; after it, v3 proceeds straight to
aggregation (no final `save_progress` either). -/
def run (detail : RawEntry → Except String Unit) (mods : List RawEntry) : St :=
  mods.foldl (step detail) st0

theorem run_aux (detail : RawEntry → Except String Unit) (mods : List RawEntry) :
    ∀ st : St, (mods.foldl (step detail) st).processed = st.processed ++ mods.map rawKey ∧
      (mods.foldl (step detail) st).completed =
        st.completed + (mods.filter (fun m => (detail m).isOk)).length ∧
      (mods.foldl (step detail) st).failed =
        st.failed + (mods.filter (fun m => ¬ (detail m).isOk)).length ∧
      (mods.foldl (step detail) st).saveCalls = st.saveCalls := by
  induction mods with
  | nil => intro st; simp
  | cons m rest ih =>
    intro st
    rw [List.foldl_cons]
    rcases ih (step detail st m) with ⟨h1, h2, h3, h4⟩
    cases hd : detail m with
    | ok u =>
      have hs : step detail st m =
          { st with completed := st.completed + 1,
                    processed := st.processed ++ [rawKey m] } := by
        rw [step, hd]
      rw [hs] at h1 h2 h3 h4 ⊢
      dsimp only at h1 h2 h3 h4
      refine ⟨?_, ?_, ?_, ?_⟩
      · rw [h1]
        simp [List.append_assoc]
      · rw [h2]
        have hfo : List.filter (fun x => (detail x).isOk) (m :: rest) =
            m :: List.filter (fun x => (detail x).isOk) rest := by
          simp [List.filter_cons, hd, Except.isOk, Except.toBool]
        rw [hfo, List.length_cons]
        omega
      · rw [h3]
        have hff : List.filter (fun x => ¬ (detail x).isOk) (m :: rest) =
            List.filter (fun x => ¬ (detail x).isOk) rest := by
          simp [List.filter_cons, hd, Except.isOk, Except.toBool]
        rw [hff]
      · rw [h4]
    | error e =>
      have hs : step detail st m =
          { st with failed := st.failed + 1,
                    processed := st.processed ++ [rawKey m] } := by
        rw [step, hd]
      rw [hs] at h1 h2 h3 h4 ⊢
      dsimp only at h1 h2 h3 h4
      refine ⟨?_, ?_, ?_, ?_⟩
      · rw [h1]
        simp [List.append_assoc]
      · rw [h2]
        have hfo : List.filter (fun x => (detail x).isOk) (m :: rest) =
            List.filter (fun x => (detail x).isOk) rest := by
          simp [List.filter_cons, hd, Except.isOk, Except.toBool]
        rw [hfo]
      · rw [h3]
        have hff : List.filter (fun x => ¬ (detail x).isOk) (m :: rest) =
            m :: List.filter (fun x => ¬ (detail x).isOk) rest := by
          simp [List.filter_cons, hd, Except.isOk, Except.toBool]
        rw [hff, List.length_cons]
        omega
      · rw [h4]

/-- v3's main loop visits every module (failures do not abort), counts
exactly the failing items as failed, and never persists anything. -/
theorem run_spec (detail : RawEntry → Except String Unit) (mods : List RawEntry) :
    (run detail mods).processed = mods.map rawKey ∧
    (run detail mods).completed = (mods.filter (fun m => (detail m).isOk)).length ∧
    (run detail mods).failed = (mods.filter (fun m => ¬ (detail m).isOk)).length ∧
    (run detail mods).saveCalls = 0 := by
  rcases run_aux detail mods st0 with ⟨h1, h2, h3, h4⟩
  exact ⟨by simpa [st0] using h1, by simpa [st0] using h2,
    by simpa [st0] using h3, by simpa [st0] using h4⟩

end V3Main

namespace V2Main

open Scraper

def BATCH_SIZE : Nat := 50

/-- The mutable progress state of `module_scraper_v2.py`'s `main`:
`progress['completed']`, `progress['failed']`, the batch counter, the
number of `save_progress` calls attempted so far, and the length of
`progress['completed']` at the last successful persist (what is on
disk). -/
structure St where
  completed : List String
  failed : List String
  batch_counter : Nat
  saveAttempts : Nat
  persisted : Nat
deriving DecidableEq, Repr

/-- Initial state from the loaded progress file; on a fresh run both
lists are empty. The loaded completed entries are on disk already. -/
def initSt (completedInit failedInit : List String) : St :=
  { completed := completedInit, failed := failedInit, batch_counter := 0
    saveAttempts := 0, persisted := completedInit.length }

/-- One iteration of v2's `main` loop (lines 205-236). `completedInit`
and `failedInit` are the `completed_ids` / `failed_ids` sets fixed
before the loop. The whole body runs inside `try`: in particular the
batch-boundary `save_progress` does, so when the save raises
(`saveOk` false for that call index) the generic `except` catches it,
appends the current module to `failed`, and the loop continues;
`batch_counter` keeps its incremented value because the reset line was
never reached. (Python's `list.remove` on a missing element would
raise; `List.erase` is total, and the element is present whenever the
branch runs on states reachable from `initSt`.) -/
def step (completedInit failedInit : List String) (detail : RawEntry → Except String Unit)
    (saveOk : Nat → Bool) (st : St) (m : RawEntry) : St :=
  let module_id := rawKey m
  if module_id ∈ completedInit then st
  else
    match detail m with
    | Except.error _ => { st with failed := st.failed ++ [module_id] }
    | Except.ok _ =>
      let completed := st.completed ++ [module_id]
      let failed := if module_id ∈ failedInit then st.failed.erase module_id else st.failed
      let bc := st.batch_counter + 1
      if BATCH_SIZE ≤ bc then
        if saveOk st.saveAttempts then
          { completed := completed, failed := failed, batch_counter := 0
            saveAttempts := st.saveAttempts + 1, persisted := completed.length }
        else
          { completed := completed, failed := failed ++ [module_id], batch_counter := bc
            saveAttempts := st.saveAttempts + 1, persisted := st.persisted }
      else
        { completed := completed, failed := failed, batch_counter := bc
          saveAttempts := st.saveAttempts, persisted := st.persisted }

def loop (completedInit failedInit : List String) (detail : RawEntry → Except String Unit)
    (saveOk : Nat → Bool) (mods : List RawEntry) : St :=
  mods.foldl (step completedInit failedInit detail saveOk) (initSt completedInit failedInit)

/-- All states the loop passes through, for reachable-state statements. -/
def trace (completedInit failedInit : List String) (detail : RawEntry → Except String Unit)
    (saveOk : Nat → Bool) (mods : List RawEntry) : List St :=
  mods.scanl (step completedInit failedInit detail saveOk) (initSt completedInit failedInit)

/-- After the loop (lines 238-248): the final `save_progress` call, then
building and writing the final JSON, both outside any `try`. A failure
of either propagates out of `main`; the model returns it as the run's
error. -/
def finish (saveOk : Nat → Bool) (snapshotOk : Bool) (st : St) : Except String St :=
  if saveOk st.saveAttempts then
    let st' := { st with saveAttempts := st.saveAttempts + 1, persisted := st.completed.length }
    if snapshotOk then Except.ok st' else Except.error "snapshot write failed"
  else Except.error "checkpoint write failed"

def run (completedInit failedInit : List String) (detail : RawEntry → Except String Unit)
    (saveOk : Nat → Bool) (snapshotOk : Bool) (mods : List RawEntry) : Except String St :=
  finish saveOk snapshotOk (loop completedInit failedInit detail saveOk mods)

end V2Main

namespace V2Main

open Scraper

/-- On a fresh run with a healthy checkpoint store, v2's loop records
exactly the keys of the failing modules in `progress['failed']`, in
input order, and keeps going after each failure. -/
theorem loop_failed_keys_aux (detail : RawEntry → Except String Unit)
    (mods : List RawEntry) :
    ∀ st : St, (mods.foldl (step [] [] detail (fun _ => true)) st).failed =
      st.failed ++ (mods.filter (fun m => ¬ (detail m).isOk)).map rawKey := by
  induction mods with
  | nil => intro st; simp
  | cons m rest ih =>
    intro st
    rw [List.foldl_cons, ih]
    cases hd : detail m with
    | error e =>
      have hs : (step [] [] detail (fun _ => true) st m).failed =
          st.failed ++ [rawKey m] := by
        rw [step]
        simp [hd]
      have hfil : List.filter (fun x => ¬ (detail x).isOk) (m :: rest) =
          m :: List.filter (fun x => ¬ (detail x).isOk) rest := by
        simp [List.filter_cons, hd, Except.isOk, Except.toBool]
      rw [hs, hfil, List.map_cons]
      simp [List.append_assoc]
    | ok u =>
      have hs : (step [] [] detail (fun _ => true) st m).failed = st.failed := by
        by_cases hb : BATCH_SIZE ≤ st.batch_counter + 1
        · rw [step]
          simp [hd, hb]
        · rw [step]
          simp [hd, hb]
      have hfil : List.filter (fun x => ¬ (detail x).isOk) (m :: rest) =
          List.filter (fun x => ¬ (detail x).isOk) rest := by
        simp [List.filter_cons, hd, Except.isOk, Except.toBool]
      rw [hs, hfil]

theorem loop_failed_keys (detail : RawEntry → Except String Unit) (mods : List RawEntry) :
    (loop [] [] detail (fun _ => true) mods).failed =
      (mods.filter (fun m => ¬ (detail m).isOk)).map rawKey := by
  rw [loop, loop_failed_keys_aux]
  simp [initSt]

end V2Main

namespace Retry

open Scraper

/-- C5 (amended). With every attempt failing, both retry variants make
at most `max_retries` attempts and re-raise the last error to the
caller; the v2/v3 variant sleeps `RETRY_DELAY * 2 ** attempt` after
failed attempt number `attempt` (0-based), while the parallel/phase1
variant sleeps the constant `RETRY_DELAY`; and the v3 main loop visits
every module regardless of failures, counting exactly the failing ones
as failed, while the v2 loop records the failing modules' keys in
`progress['failed']` and continues the run. -/
theorem claim_c5_retry_policy (fetch : Nat → Except String String) (max_retries : Nat)
    (e : Nat → String)
    (hf : ∀ i, i < max_retries → fetch i = Except.error (e i))
    (hpos : 0 < max_retries) :
    (scrape_with_retry_v3 fetch max_retries).attempts ≤ max_retries ∧
    (scrape_with_retry_parallel fetch max_retries).attempts ≤ max_retries ∧
    (∃ n, (scrape_with_retry_v3 fetch max_retries).delays =
      (List.range' 0 n).map (fun attempt => RETRY_DELAY * 2 ^ attempt)) ∧
    (∃ n, (scrape_with_retry_parallel fetch max_retries).delays =
      (List.range' 0 n).map (fun _ => RETRY_DELAY)) ∧
    (scrape_with_retry_v3 fetch max_retries).result =
      some (Except.error (e (max_retries - 1))) ∧
    (scrape_with_retry_parallel fetch max_retries).result =
      some (Except.error (e (max_retries - 1))) ∧
    (∀ (mods : List RawEntry) (detail : RawEntry → Except String Unit),
      (V3Main.run detail mods).processed = mods.map rawKey ∧
      (V3Main.run detail mods).failed =
        (mods.filter (fun m => ¬ (detail m).isOk)).length ∧
      (V2Main.loop [] [] detail (fun _ => true) mods).failed =
        (mods.filter (fun m => ¬ (detail m).isOk)).map rawKey) := by
  refine ⟨retryGo_attempts_le fetch max_retries _ max_retries 0,
    retryGo_attempts_le fetch max_retries _ max_retries 0,
    retryGo_delays fetch max_retries _ max_retries 0,
    retryGo_delays fetch max_retries _ max_retries 0,
    retryGo_all_fail fetch max_retries _ e hf max_retries 0 (by omega) hpos,
    retryGo_all_fail fetch max_retries _ e hf max_retries 0 (by omega) hpos,
    fun mods detail => ?_⟩
  rcases V3Main.run_spec detail mods with ⟨h1, -, h3, -⟩
  exact ⟨h1, h3, V2Main.loop_failed_keys detail mods⟩

/-- Witness for C5: three failing attempts re-raise the failure, with at
most three attempts made. -/
theorem claim_c5_witness :
    (scrape_with_retry_v3 (fun _ => Except.error "boom") 3).result =
      some (Except.error "boom") ∧
    (scrape_with_retry_v3 (fun _ => Except.error "boom") 3).attempts ≤ 3 :=
  ⟨(claim_c5_retry_policy (fun _ => Except.error "boom") 3 (fun _ => "boom")
      (fun _ _ => rfl) (by decide)).2.2.2.2.1,
    (claim_c5_retry_policy (fun _ => Except.error "boom") 3 (fun _ => "boom")
      (fun _ _ => rfl) (by decide)).1⟩

end Retry

namespace Scraper

/-- A list of 51 identical all-succeeding modules: one more than `BATCH_SIZE`. -/
def batchMods : List RawEntry :=
  List.replicate 51 { nummer := "107", version := "1", titel := "", detail_url := "" }

set_option maxRecDepth 20000 in
/-- C6 (code bug in v3). `module_scraper_v3.main` defines
`load_progress`/`save_progress` and prints a batch-boundary progress
message, but never calls `save_progress`: after 51 successful items
(more than `BATCH_SIZE = 50`) zero checkpoint writes have happened, and
none happens at run end either, so completed-but-unpersisted items are
unbounded. The v2 loop on the same input shows the intended behavior:
one batch save during the loop, one more at run end, and never more than
`BATCH_SIZE` completed-but-unpersisted items at any reachable state. -/
theorem claim_c6_code_bug :
    V3Main.BATCH_SIZE = 50 ∧
    (V3Main.run (fun _ => Except.ok ()) batchMods).completed = 51 ∧
    (V3Main.run (fun _ => Except.ok ()) batchMods).saveCalls = 0 ∧
    (V2Main.loop [] [] (fun _ => Except.ok ()) (fun _ => true) batchMods).saveAttempts = 1 ∧
    ((V2Main.run [] [] (fun _ => Except.ok ()) (fun _ => true) true batchMods).map
      (fun st => st.saveAttempts)).toOption = some 2 ∧
    ((V2Main.trace [] [] (fun _ => Except.ok ()) (fun _ => true) batchMods).all
      (fun st => decide (st.completed.length - st.persisted ≤ V2Main.BATCH_SIZE))) =
      true := by
  refine ⟨rfl, ?_, ?_, ?_, ?_, ?_⟩ <;> decide

end Scraper

namespace V2Main

open Scraper

set_option maxRecDepth 20000 in
/-- C7 counterexample: with all 51 module fetches succeeding and the
checkpoint store failing exactly on its first write (the batch-boundary
save inside the per-module `try`), the run still finishes with
`Except.ok` and all 51 modules processed; the absorbed persistence
failure merely marked module `107-1` as failed. So a Checkpoint write
failure is not always fatal: processing continues past it. -/
theorem claim_c7_counterexample :
    (((run [] [] (fun _ => Except.ok ()) (fun n => decide (n ≠ 0)) true batchMods).map
      (fun st => st.completed.length)).toOption = some 51) ∧
    (loop [] [] (fun _ => Except.ok ()) (fun n => decide (n ≠ 0)) batchMods).saveAttempts
      = 2 ∧
    (fun n => decide (n ≠ 0)) 0 = false ∧
    (loop [] [] (fun _ => Except.ok ()) (fun n => decide (n ≠ 0)) batchMods).failed =
      ["107-1"] := by
  refine ⟨?_, ?_, rfl, ?_⟩ <;> decide

/-- C7 (amended). The run aborts with an error exactly when the
end-of-run Checkpoint save or the Snapshot write fails — those sit
outside any `try` and so always surface; but a batch-boundary Checkpoint
save failure inside the per-module `try` is caught by the generic
per-module handler, which marks the current module as failed, leaves the
persisted state unchanged, and lets the loop continue. -/
theorem claim_c7_persistence_failures (completedInit failedInit : List String)
    (detail : RawEntry → Except String Unit) (saveOk : Nat → Bool) (snapshotOk : Bool)
    (mods : List RawEntry) :
    ((run completedInit failedInit detail saveOk snapshotOk mods).isOk = true ↔
      (saveOk (loop completedInit failedInit detail saveOk mods).saveAttempts = true ∧
        snapshotOk = true)) ∧
    (∀ (st : St) (m : RawEntry),
      rawKey m ∉ completedInit → (detail m).isOk = true →
      BATCH_SIZE ≤ st.batch_counter + 1 → saveOk st.saveAttempts = false →
      (step completedInit failedInit detail saveOk st m).failed.getLast? =
        some (rawKey m) ∧
      (step completedInit failedInit detail saveOk st m).persisted = st.persisted ∧
      (step completedInit failedInit detail saveOk st m).saveAttempts =
        st.saveAttempts + 1) := by
  constructor
  · rw [run, finish]
    by_cases hs : saveOk (loop completedInit failedInit detail saveOk mods).saveAttempts
      = true
    · rw [if_pos hs]
      cases snapshotOk with
      | true => simp [hs, Except.isOk, Except.toBool]
      | false => simp [hs, Except.isOk, Except.toBool]
    · rw [if_neg (by simpa using hs)]
      simp [hs, Except.isOk, Except.toBool]
  · intro st m hmem hok hbatch hsave
    obtain ⟨u, hu⟩ : ∃ u, detail m = Except.ok u := by
      cases hd : detail m with
      | ok u => exact ⟨u, rfl⟩
      | error e =>
        rw [hd] at hok
        simp [Except.isOk, Except.toBool] at hok
    have hstep : step completedInit failedInit detail saveOk st m =
        { completed := st.completed ++ [rawKey m]
          failed := (if rawKey m ∈ failedInit then st.failed.erase (rawKey m)
            else st.failed) ++ [rawKey m]
          batch_counter := st.batch_counter + 1
          saveAttempts := st.saveAttempts + 1
          persisted := st.persisted } := by
      rw [step]
      simp [hmem, hu, hbatch, hsave]
    rw [hstep]
    exact ⟨List.getLast?_concat _, rfl, rfl⟩

end V2Main

namespace Report

/-- Witness for C1: the classification applied to the concrete 107/108
snapshots yields exactly the claimed change set. -/
theorem claim_c1_witness :
    (compare_databases dbA dbB).neue_module = ["108-V1"] ∧
    (compare_databases dbA dbB).geaenderte_module.map ChangedEntry.modul = ["107-V1"] ∧
    (compare_databases dbA dbB).geloeschte_module = [] :=
  (claim_c1_diff_classification dbA dbB).2.2.2.2

end Report

namespace V2Main

open Scraper

/-- Witness for C7: the amended theorem applied to a concrete state at a
batch boundary with a failing save marks the module failed and persists
nothing, and a run whose final save fails is an error. -/
theorem claim_c7_witness :
    (step [] [] (fun _ => Except.ok ()) (fun _ => false)
      { completed := [], failed := [], batch_counter := 49, saveAttempts := 0,
        persisted := 0 }
      { nummer := "107", version := "1", titel := "", detail_url := "" }).failed.getLast?
      = some "107-1" ∧
    (step [] [] (fun _ => Except.ok ()) (fun _ => false)
      { completed := [], failed := [], batch_counter := 49, saveAttempts := 0,
        persisted := 0 }
      { nummer := "107", version := "1", titel := "", detail_url := "" }).persisted = 0 ∧
    (step [] [] (fun _ => Except.ok ()) (fun _ => false)
      { completed := [], failed := [], batch_counter := 49, saveAttempts := 0,
        persisted := 0 }
      { nummer := "107", version := "1", titel := "", detail_url := "" }).saveAttempts
      = 1 := by
  have h := (claim_c7_persistence_failures [] [] (fun _ => Except.ok ())
    (fun _ => false) true []).2
    { completed := [], failed := [], batch_counter := 49, saveAttempts := 0,
      persisted := 0 }
    { nummer := "107", version := "1", titel := "", detail_url := "" }
    (by simp) rfl (by decide) rfl
  exact h

end V2Main
